import Mathlib

/-!
Verification of the multi-party BLS library (threshold BLS on BLS12-381 with DKG,
plus BDN18 aggregated BLS) against its natural-language specification.

Modelling conventions (shallow embedding of the Rust sources):

* `G1`, `G2`, `Gt` and `Fr` all have the same prime order `q`, so each group is
  identified with `ZMod q` through the discrete logarithm at its fixed generator:
  a point `P = g·x` is represented by `x`, point addition becomes `+`, scalar
  multiplication becomes `*`, and the generator is `1`. The pairing
  `e(g1·a, g2·b) = gt·(a·b)` becomes multiplication in `ZMod q`, and a product of
  pairing values in `Gt` becomes a sum of the representing scalars. Every
  operation the sources perform on points is linear, so this representation is
  an exact isomorphic image of the code's behaviour.
* Hash functions (SHA-256 commitment hash, Fiat-Shamir challenges, hash-to-curve,
  the BDN18 coefficient hash) are external primitives; they are taken as explicit
  function parameters of the definitions that use them.
* Randomness (secret scalars, commitment blinds, VSS polynomial coefficients,
  proof nonces) is passed explicitly to the operations that sample it.
* Machine integers (`u16`, `BigInt`) are modelled by `ℕ` / `ℤ`; where the code
  can overflow or panic this is modelled explicitly (an `Option` whose `none`
  stands for a Rust panic).
* Fallible Rust functions returning `Result` become `Except`; functions that can
  additionally panic (index/slice out of bounds, unsigned underflow) return
  `Option (Except ..)` with `none` for the panic.
* Code of the crate's dependencies (curv's Feldman VSS, hash commitment, Schnorr
  DLog proof; round_based's message stores) is not part of `src/`; those pieces
  are modelled from the specification and marked `Modelled from the spec`.
-/

deriving instance DecidableEq for Except

namespace MpBls

/-- `ShamirSecretSharing` parameters (curv): threshold `t` and share count `n`. -/
structure ShamirSecretSharing where
  threshold : ℕ
  share_count : ℕ
deriving DecidableEq

/-- The crate-level error enum (`src/lib.rs`). -/
inductive Error where
  | KeyGenMisMatchedVectors
  | KeyGenBadCommitment
  | KeyGenInvalidShare
  | KeyGenDlogProofError
  | PartialSignatureVerificationError
  | SigningMisMatchedVectors
deriving DecidableEq

/-- Type of the Fiat-Shamir challenge hash of the ECDDH proof: SHA-256 over the
six compressed points of the transcript `(g1, h1, g2, h2, a1, a2)`, producing a
`BigInt`. Kept abstract (external primitive). -/
def Chal (q : ℕ) : Type := ZMod q → ZMod q → ZMod q → ZMod q → ZMod q → ZMod q → ℤ

/-- Type of `hash_to_curve : {0,1}* → G1` (messages as byte lists), abstract. -/
def HashToCurve (q : ℕ) : Type := List ℕ → ZMod q

/-- Type of the SHA-256 hash commitment (curv `HashCommitment`): message and blind
factor (both `BigInt`) to digest. Kept abstract. -/
def CommitHash : Type := ℤ → ℤ → ℤ

/-- Type of the compressed-point byte encoding `Point::to_bytes(true)` of a G2
point, abstract (external primitive). -/
def PointBytes (q : ℕ) : Type := ZMod q → List ℕ

/-- `BigInt::from_bytes`: big-endian byte list to integer. -/
def fromBytes (bs : List ℕ) : ℤ :=
  bs.foldl (fun acc b => acc * 256 + (b : ℤ)) 0

/-- `ECDDHProof` (`src/threshold_bls/utilities.rs`): `a1 ∈ G1`, `a2 ∈ G2`,
response `z : BigInt`. -/
structure ECDDHProof (q : ℕ) where
  a1 : ZMod q
  a2 : ZMod q
  z : ℤ
deriving DecidableEq

/-- `ECDDHStatement`: the cross-group DDH tuple `(g1, h1) ∈ G1²`, `(g2, h2) ∈ G2²`. -/
structure ECDDHStatement (q : ℕ) where
  g1 : ZMod q
  h1 : ZMod q
  g2 : ZMod q
  h2 : ZMod q
deriving DecidableEq

/-- `ECDDHProof::verify`: recompute the challenge and check
`g1·z == a1 + h1·e` and `g2·z == a2 + h2·e`. -/
def ECDDHProof.verify {q : ℕ} (chal : Chal q) (pf : ECDDHProof q)
    (delta : ECDDHStatement q) : Bool :=
  let e : ℤ := chal delta.g1 delta.h1 delta.g2 delta.h2 pf.a1 pf.a2
  decide (delta.g1 * (pf.z : ZMod q) = pf.a1 + delta.h1 * (e : ZMod q)
    ∧ delta.g2 * (pf.z : ZMod q) = pf.a2 + delta.h2 * (e : ZMod q))

/-- `ECDDHProof::prove` with the random nonce `s` passed explicitly; the witness
`x` is a `BigInt`. `z = s + e·x` is computed over the integers (no reduction). -/
def ECDDHProof.prove {q : ℕ} (chal : Chal q) (s : ZMod q) (x : ℤ)
    (delta : ECDDHStatement q) : ECDDHProof q :=
  let a1 := delta.g1 * s
  let a2 := delta.g2 * s
  let e := chal delta.g1 delta.h1 delta.g2 delta.h2 a1 a2
  { a1 := a1, a2 := a2, z := (s.val : ℤ) + e * x }

/-- `BLSSignature` (`src/basic_bls.rs`): a point of G1. -/
structure BLSSignature (q : ℕ) where
  sigma : ZMod q
deriving DecidableEq

/-- `BLSSignature::verify`: the pairing-product check
`e(H(m), Y) · e(σ, −g2) == 1` in Gt, i.e. in discrete-log form
`H(m)·Y + σ·(−1) = 0`. -/
def BLSSignature.verify {q : ℕ} (Hc : HashToCurve q) (sig : BLSSignature q)
    (message : List ℕ) (pubkey : ZMod q) : Bool :=
  decide (Hc message * pubkey + sig.sigma * (-1 : ZMod q) = 0)

/-- `PartialSignature` (`src/threshold_bls/party_i.rs`). -/
structure PartialSignature (q : ℕ) where
  index : ℕ
  sigma_i : ZMod q
  ddh_proof : ECDDHProof q
deriving DecidableEq

/-- Junk value used to model Rust's in-bounds slice indexing by `getD`. -/
def psigDefault (q : ℕ) : PartialSignature q := ⟨0, 0, ⟨0, 0, 0⟩⟩

/-- `SharedKeys` (`src/threshold_bls/party_i.rs`): terminal DKG output of one party. -/
structure SharedKeys (q : ℕ) where
  index : ℕ
  params : ShamirSecretSharing
  vk : ZMod q
  sk_i : ZMod q
deriving DecidableEq

/-- `Keys` (`src/threshold_bls/party_i.rs`): DKG-local key material of one party. -/
structure Keys (q : ℕ) where
  u_i : ZMod q
  y_i : ZMod q
  party_index : ℕ
deriving DecidableEq

/-- `KeyGenComm`: the broadcast hash commitment (a `BigInt`). -/
structure KeyGenComm where
  com : ℤ
deriving DecidableEq

/-- `KeyGenDecom`: blind factor and the committed public point. -/
structure KeyGenDecom (q : ℕ) where
  blind_factor : ℤ
  y_i : ZMod q
deriving DecidableEq

/-- `Keys::phase1_create` with the random secret scalar `u` passed explicitly:
`y = g2·u` (so in discrete-log form `y_i = u`). -/
def Keys.phase1_create {q : ℕ} (u : ZMod q) (index : ℕ) : Keys q :=
  ⟨u, u, index⟩

/-- `Keys::phase1_broadcast` with the random 256-bit blind passed explicitly.
The committed message is `BigInt::from_bytes(bytes(y_i)) + party_index` —
integer addition of the party index to the encoded point. -/
def Keys.phase1_broadcast {q : ℕ} (Hcom : CommitHash) (enc : PointBytes q)
    (blind : ℤ) (k : Keys q) : KeyGenComm × KeyGenDecom q :=
  (⟨Hcom (fromBytes (enc k.y_i) + (k.party_index : ℤ)) blind⟩, ⟨blind, k.y_i⟩)

/-- The commitment as the specification's words describe it: the hash over the
byte concatenation `bytes(y_i) ∥ i` (the party index appended as a byte),
blinded by `r`. Stated for comparison against `Keys.phase1_broadcast`. -/
def specConcatCommitment {q : ℕ} (Hcom : CommitHash) (enc : PointBytes q)
    (k : Keys q) (blind : ℤ) : ℤ :=
  Hcom (fromBytes (enc k.y_i ++ [k.party_index])) blind

/-- Modelled from the spec (§4.2): curv's Feldman `VerifiableSS` — polynomial
commitments `A_k = g2·a_k` kept in discrete-log form (so `commitments` is the
coefficient list itself). curv is a dependency, not part of `src/`. -/
structure VerifiableSS (q : ℕ) where
  parameters : ShamirSecretSharing
  commitments : List (ZMod q)
deriving DecidableEq

/-- Horner evaluation of the polynomial with coefficient list `coeffs`
(constant coefficient first) at `x`. -/
def polyEval {q : ℕ} (coeffs : List (ZMod q)) (x : ZMod q) : ZMod q :=
  coeffs.foldr (fun a acc => a + x * acc) 0

/-- Modelled from the spec (§4.2): `VerifiableSS::share(t, n, secret)` — a
uniform degree-`t` polynomial `f` with `f(0) = secret` (its `t` random higher
coefficients passed explicitly), returning the commitment scheme and the
shares `(f(1), …, f(n))` (1-indexed evaluation points). -/
def VerifiableSS.share {q : ℕ} (t n : ℕ) (secret : ZMod q)
    (coefRand : List (ZMod q)) : VerifiableSS q × List (ZMod q) :=
  let coeffs := secret :: coefRand.take t
  (⟨⟨t, n⟩, coeffs⟩, (List.range n).map (fun j => polyEval coeffs ((j : ZMod q) + 1)))

/-- Modelled from the spec (§4.2): `validate_share` checks
`g2·share == Σ_{k≤t} A_k · i^k`, i.e. `share = f(i)` in discrete-log form. -/
def VerifiableSS.validate_share {q : ℕ} (scheme : VerifiableSS q)
    (share : ZMod q) (i : ℕ) : Bool :=
  decide (share = polyEval scheme.commitments (i : ZMod q))

/-- Modelled from the spec (§4.2): `map_share_to_new_params(params, index, s)`
returns the Lagrange coefficient `λ_index(0)` of the 0-based index `index` over
the 0-based index subset `s`, where index `j` evaluates at point `j+1`:
`λ_i(0) = Π_{j ∈ s, j ≠ i} (j+1) / ((j+1) − (i+1))`. -/
def mapShareToNewParams {q : ℕ} (_params : ShamirSecretSharing) (index : ℕ)
    (s : List ℕ) : ZMod q :=
  ((s.filter (fun j => j ≠ index)).map
    (fun j : ℕ =>
      ((j : ZMod q) + 1) * (((j : ZMod q) + 1) - ((index : ZMod q) + 1))⁻¹)).prod

/-- Type of the Fiat-Shamir challenge of the Schnorr DLog proof (§4.3):
SHA-256 over `(pk, A)` (the generator is fixed), a `BigInt`. Abstract. -/
def ChalD (q : ℕ) : Type := ZMod q → ZMod q → ℤ

/-- Modelled from the spec (§4.3): curv's Schnorr `DLogProof` over G2. -/
structure DLogProof (q : ℕ) where
  pk : ZMod q
  pk_t_rand_commitment : ZMod q
  challenge_response : ZMod q
deriving DecidableEq

/-- Modelled from the spec (§4.3): `DLogProof::prove` with nonce `k`:
`pk = g2·x`, `A = g2·k`, `e = H256(pk, A)`, `z = k + e·x`. -/
def DLogProof.prove {q : ℕ} (chalD : ChalD q) (k : ZMod q) (x : ZMod q) :
    DLogProof q :=
  ⟨x, k, k + ((chalD x k : ℤ) : ZMod q) * x⟩

/-- Modelled from the spec (§4.3): `DLogProof::verify` checks
`g2·z == A + pk·e` with the recomputed challenge `e`. -/
def DLogProof.verify {q : ℕ} (chalD : ChalD q) (pf : DLogProof q) : Bool :=
  decide (pf.challenge_response
    = pf.pk_t_rand_commitment + pf.pk * ((chalD pf.pk pf.pk_t_rand_commitment : ℤ) : ZMod q))

/-- `Keys::phase1_verify_com_phase2_distribute`
(`src/threshold_bls/party_i.rs`): length checks, then for each vector position
`i` recompute the commitment from `decom_vec[i]` with the 0-based index `i` as
context; on success run `VerifiableSS::share(t, n, u_i)` (with its coefficient
randomness passed explicitly). -/
def Keys.phase1_verify_com_phase2_distribute {q : ℕ} (Hcom : CommitHash)
    (enc : PointBytes q) (coefRand : List (ZMod q)) (k : Keys q)
    (params : ShamirSecretSharing) (decom_vec : List (KeyGenDecom q))
    (bc1_vec : List KeyGenComm) :
    Except Error (VerifiableSS q × List (ZMod q) × ℕ) :=
  if decom_vec.length ≠ params.share_count ∨ bc1_vec.length ≠ params.share_count then
    Except.error Error.KeyGenMisMatchedVectors
  else
    let good := (List.range bc1_vec.length).all fun i =>
      decide (Hcom (fromBytes (enc (decom_vec.getD i ⟨0, 0⟩).y_i) + (i : ℤ))
        (decom_vec.getD i ⟨0, 0⟩).blind_factor = (bc1_vec.getD i ⟨0⟩).com)
    let sh := VerifiableSS.share params.threshold params.share_count k.u_i coefRand
    if good then Except.ok (sh.1, sh.2, k.party_index)
    else Except.error Error.KeyGenBadCommitment

/-- `Keys::phase2_verify_vss_construct_keypair_prove_dlog`
(`src/threshold_bls/party_i.rs`): length checks; for each party validate the
received share against its VSS scheme at the 1-based index and check
`commitments[0] == y_vec[j]`; on success aggregate `vk = Σ yⱼ`,
`sk_i = Σ shares`, and prove knowledge of `sk_i` (nonce passed explicitly). -/
def Keys.phase2_verify_vss_construct_keypair_prove_dlog {q : ℕ}
    (chalD : ChalD q) (dlogNonce : ZMod q) (k : Keys q)
    (params : ShamirSecretSharing) (y_vec : List (ZMod q))
    (secret_shares_vec : List (ZMod q)) (vss_scheme_vec : List (VerifiableSS q))
    (index : ℕ) : Except Error (SharedKeys q × DLogProof q) :=
  if y_vec.length ≠ params.share_count
      ∨ secret_shares_vec.length ≠ params.share_count
      ∨ vss_scheme_vec.length ≠ params.share_count then
    Except.error Error.KeyGenMisMatchedVectors
  else
    let good := (List.range y_vec.length).all fun i =>
      (vss_scheme_vec.getD i ⟨⟨0, 0⟩, []⟩).validate_share (secret_shares_vec.getD i 0) index
        && decide ((vss_scheme_vec.getD i ⟨⟨0, 0⟩, []⟩).commitments.getD 0 0 = y_vec.getD i 0)
    if good then
      let y := y_vec.sum
      let x_i := secret_shares_vec.sum
      Except.ok (⟨k.party_index, params, y, x_i⟩, DLogProof.prove chalD dlogNonce x_i)
    else Except.error Error.KeyGenInvalidShare

/-- `Keys::verify_dlog_proofs` (`src/threshold_bls/party_i.rs`). -/
def Keys.verify_dlog_proofs {q : ℕ} (chalD : ChalD q)
    (params : ShamirSecretSharing) (dlog_proofs_vec : List (DLogProof q)) :
    Except Error Unit :=
  if dlog_proofs_vec.length ≠ params.share_count then
    Except.error Error.KeyGenMisMatchedVectors
  else if dlog_proofs_vec.all (fun pf => pf.verify chalD) then Except.ok ()
  else Except.error Error.KeyGenDlogProofError

/-- `SharedKeys::get_shared_pubkey`: `g2·sk_i` (discrete-log form: `sk_i`). -/
def SharedKeys.get_shared_pubkey {q : ℕ} (sk : SharedKeys q) : ZMod q :=
  sk.sk_i

/-- `SharedKeys::partial_sign` (`src/threshold_bls/party_i.rs`), with the ECDDH
proof nonce passed explicitly: `H = hash_to_curve(msg)`, `σᵢ = H·sk_i`, plus an
ECDDH proof for the tuple `(H, σᵢ, g2, g2·sk_i)` with witness `sk_i`. -/
def SharedKeys.partSign {q : ℕ} (chal : Chal q) (Hc : HashToCurve q)
    (nonce : ZMod q) (sk : SharedKeys q) (x : List ℕ) :
    PartialSignature q × ZMod q :=
  let H_x := Hc x
  let sigma_i := H_x * sk.sk_i
  let delta : ECDDHStatement q := ⟨H_x, sigma_i, 1, sk.get_shared_pubkey⟩
  (⟨sk.index, sigma_i, ECDDHProof.prove chal nonce (sk.sk_i.val : ℤ) delta⟩, H_x)

/-- `SharedKeys::verify_partial_sig`: verify the ECDDH proof against the
statement `(H, σᵢ, g2, vkᵢ)`. -/
def verifyPartialSig {q : ℕ} (chal : Chal q) (H_x : ZMod q)
    (psig : PartialSignature q) (vk_i : ZMod q) : Bool :=
  psig.ddh_proof.verify chal ⟨H_x, psig.sigma_i, 1, vk_i⟩

/-- `SharedKeys::combine` (`src/threshold_bls/party_i.rs`). The outer `Option`
models Rust panics: after the length guards (which only require `≥ t` inputs),
the code slices `tail[0..t]` (needs `t+1` partial signatures) and `s[0..t+1]`
(needs `t+1` subset indices); either slice panics when only `t` inputs were
supplied, which is `none` here. The Lagrange combination folds over the first
`t+1` partial signatures exactly as the source does. -/
def SharedKeys.combine {q : ℕ} (chal : Chal q) (sk : SharedKeys q)
    (vk_vec : List (ZMod q)) (psigs : List (PartialSignature q))
    (H_x : ZMod q) (s : List ℕ) : Option (Except Error (BLSSignature q)) :=
  if vk_vec.length ≠ psigs.length ∨ vk_vec.length < sk.params.threshold
      ∨ s.length < sk.params.threshold ∨ sk.params.share_count < s.length then
    some (Except.error Error.SigningMisMatchedVectors)
  else if ((List.range vk_vec.length).all fun i =>
      verifyPartialSig chal H_x (psigs.getD i (psigDefault q)) (vk_vec.getD i 0)) = false then
    some (Except.error Error.PartialSignatureVerificationError)
  else
    match psigs with
    | [] => none
    | p0 :: tail =>
      if sk.params.threshold ≤ tail.length ∧ sk.params.threshold + 1 ≤ s.length then
        some (Except.ok ⟨(tail.take sk.params.threshold).foldl
          (fun acc x => acc + x.sigma_i
            * mapShareToNewParams sk.params x.index (s.take (sk.params.threshold + 1)))
          (p0.sigma_i
            * mapShareToNewParams sk.params p0.index (s.take (sk.params.threshold + 1)))⟩)
      else none

/-- `round_based::Msg`: sender, optional receiver (`none` = broadcast), body.
Parties are 1-indexed. -/
structure Msg (B : Type) where
  sender : ℕ
  receiver : Option ℕ
  body : B
deriving DecidableEq

/-- Modelled from the spec (§4.8, §7): the classified per-message store errors of
round_based's message stores (wrong direction, duplicate sender, self-addressed,
unknown sender, too many / not enough messages). -/
inductive StoreErr where
  | wrongDirection
  | duplicateSender
  | selfAddressed
  | unknownSender
  | overflow
  | wantsMoreMsgs
deriving DecidableEq

/-- Modelled from the spec (§4.8): `BroadcastMsgsStore(i, n)` — expects exactly
one broadcast message from every party `j ≠ i`; received messages kept as
`(sender, body)` pairs. -/
structure BroadcastStore (B : Type) where
  i : ℕ
  n : ℕ
  msgs : List (ℕ × B)
deriving DecidableEq

/-- The broadcast store is full once all `n − 1` other parties contributed. -/
def BroadcastStore.wantsMore {B : Type} (st : BroadcastStore B) : Bool :=
  st.msgs.length < st.n - 1

/-- Modelled from the spec (§4.8): push a message into a broadcast store,
rejecting P2P-addressed messages, self-messages, out-of-range or duplicate
senders, and pushes past fullness. -/
def BroadcastStore.push {B : Type} (st : BroadcastStore B) (m : Msg B) :
    Except StoreErr (BroadcastStore B) :=
  if m.receiver.isSome then Except.error StoreErr.wrongDirection
  else if m.sender = st.i then Except.error StoreErr.selfAddressed
  else if m.sender = 0 ∨ st.n < m.sender then Except.error StoreErr.unknownSender
  else if st.msgs.any (fun p => p.1 = m.sender) then Except.error StoreErr.duplicateSender
  else if st.wantsMore = false then Except.error StoreErr.overflow
  else Except.ok ⟨st.i, st.n, st.msgs ++ [(m.sender, m.body)]⟩

/-- Modelled from the spec (§4.8): finish a full broadcast store, yielding the
other parties' bodies in ascending party-index order. -/
def BroadcastStore.finish {B : Type} (st : BroadcastStore B) :
    Except StoreErr (List B) :=
  if st.wantsMore then Except.error StoreErr.wantsMoreMsgs
  else Except.ok (((List.range st.n).map (· + 1)).filterMap fun j =>
    if j = st.i then none
    else (st.msgs.find? (fun p => p.1 = j)).map Prod.snd)

/-- Modelled from the spec (§4.8): `P2PMsgsStore(i, n)` — expects exactly one
message addressed to `i` from every party `j ≠ i`. -/
structure P2PStore (B : Type) where
  i : ℕ
  n : ℕ
  msgs : List (ℕ × B)
deriving DecidableEq

/-- The P2P store is full once all `n − 1` other parties contributed. -/
def P2PStore.wantsMore {B : Type} (st : P2PStore B) : Bool :=
  st.msgs.length < st.n - 1

/-- Modelled from the spec (§4.8): push a message into a P2P store, rejecting
broadcasts and messages addressed to someone else, self-messages, out-of-range
or duplicate senders, and pushes past fullness. -/
def P2PStore.push {B : Type} (st : P2PStore B) (m : Msg B) :
    Except StoreErr (P2PStore B) :=
  if m.receiver ≠ some st.i then Except.error StoreErr.wrongDirection
  else if m.sender = st.i then Except.error StoreErr.selfAddressed
  else if m.sender = 0 ∨ st.n < m.sender then Except.error StoreErr.unknownSender
  else if st.msgs.any (fun p => p.1 = m.sender) then Except.error StoreErr.duplicateSender
  else if st.wantsMore = false then Except.error StoreErr.overflow
  else Except.ok ⟨st.i, st.n, st.msgs ++ [(m.sender, m.body)]⟩

/-- Modelled from the spec (§4.8): finish a full P2P store, bodies in ascending
party-index order. -/
def P2PStore.finish {B : Type} (st : P2PStore B) : Except StoreErr (List B) :=
  if st.wantsMore then Except.error StoreErr.wantsMoreMsgs
  else Except.ok (((List.range st.n).map (· + 1)).filterMap fun j =>
    if j = st.i then none
    else (st.msgs.find? (fun p => p.1 = j)).map Prod.snd)

/-- `BroadcastMsgs::into_vec_including_me` / `P2PMsgs::into_vec_including_me`:
insert one's own contribution at position `i − 1` of the other parties' bodies
(which are in ascending party-index order). -/
def intoVecIncludingMe {B : Type} (i : ℕ) (own : B) (others : List B) : List B :=
  others.take (i - 1) ++ own :: others.drop (i - 1)

/-- `ReceivedPartialSigNotValid` (`src/threshold_bls/state_machine/sign/rounds.rs`). -/
inductive ReceivedPartialSigNotValid where
  | ExpectedBroadcast
  | MsgOverwrite
  | ShareOverwrite
  | PartyOriginalIndexOutOfRange (i n : ℕ)
  | InvalidPartialSig
  | NotEnoughMsgs
  | TooManyMsgs
  | ReceivedMyOwnShare
deriving DecidableEq

/-- `ReceiveFirstValidPartialSigs` (`src/threshold_bls/state_machine/sign/rounds.rs`):
the round-1 signing message store that admits only valid partial signatures.
The `received_from` hash set is modelled as the list of distinct senders. -/
structure ReceiveFirstValidPartialSigs (q : ℕ) where
  msgs : List (ℕ × PartialSignature q)
  received_from : List ℕ
  i : ℕ
  H_x : ZMod q
  vk_vec : List (ZMod q)
  signers_n : ℕ
  secret_holders : ℕ
  threshold : ℕ
deriving DecidableEq

/-- `ReceiveFirstValidPartialSigs::wants_more`: true until `threshold` messages
are stored. -/
def ReceiveFirstValidPartialSigs.wants_more {q : ℕ}
    (st : ReceiveFirstValidPartialSigs q) : Bool :=
  st.msgs.length < st.threshold

/-- `ReceiveFirstValidPartialSigs::push_msg`: reject own echoes, P2P-addressed
messages, duplicate senders, out-of-range keygen indices and pushes past
fullness; verify the partial signature's ECDDH proof against
`vk_vec[keygen_index − 1]`; reject duplicate keygen indices; append. -/
def ReceiveFirstValidPartialSigs.push_msg {q : ℕ} (chal : Chal q)
    (st : ReceiveFirstValidPartialSigs q) (m : Msg (ℕ × PartialSignature q)) :
    Except ReceivedPartialSigNotValid (ReceiveFirstValidPartialSigs q) :=
  if m.sender = st.i then Except.error ReceivedPartialSigNotValid.ReceivedMyOwnShare
  else if m.receiver.isSome then Except.error ReceivedPartialSigNotValid.ExpectedBroadcast
  else if st.received_from.contains m.sender then
    Except.error ReceivedPartialSigNotValid.MsgOverwrite
  else if ¬ (1 ≤ m.body.1 ∧ m.body.1 ≤ st.secret_holders) then
    Except.error (ReceivedPartialSigNotValid.PartyOriginalIndexOutOfRange m.body.1 st.secret_holders)
  else if st.wants_more = false then Except.error ReceivedPartialSigNotValid.TooManyMsgs
  else if verifyPartialSig chal st.H_x m.body.2 (st.vk_vec.getD (m.body.1 - 1) 0) = false then
    Except.error ReceivedPartialSigNotValid.InvalidPartialSig
  else if st.msgs.any (fun p => p.1 = m.body.1) then
    Except.error ReceivedPartialSigNotValid.ShareOverwrite
  else Except.ok { st with msgs := st.msgs ++ [m.body],
                           received_from := st.received_from ++ [m.sender] }

/-- `ReceiveFirstValidPartialSigs::finish`. -/
def ReceiveFirstValidPartialSigs.finish {q : ℕ}
    (st : ReceiveFirstValidPartialSigs q) :
    Except ReceivedPartialSigNotValid (List (ℕ × PartialSignature q)) :=
  if st.wants_more = false then Except.ok st.msgs
  else Except.error ReceivedPartialSigNotValid.NotEnoughMsgs

/-- The `u16` subtraction `msgs.len() - threshold - 1` performed by
`ReceiveFirstValidPartialSigs::blame`, as checked arithmetic: `none` models the
unsigned-underflow panic of the Rust debug build. -/
def ReceiveFirstValidPartialSigs.blameLeft {q : ℕ}
    (st : ReceiveFirstValidPartialSigs q) : Option ℕ :=
  if st.threshold + 1 ≤ st.msgs.length then some (st.msgs.length - st.threshold - 1)
  else none

/-- `ReceiveFirstValidPartialSigs::blame`: the pair of the computed
`left` count and the parties in `1..=signers_n` that did not send; `none`
when the `u16` subtraction underflows. -/
def ReceiveFirstValidPartialSigs.blame {q : ℕ}
    (st : ReceiveFirstValidPartialSigs q) : Option (ℕ × List ℕ) :=
  st.blameLeft.map (fun left =>
    (left, (((List.range st.signers_n).map (· + 1)).filter
      (fun j => ¬ st.received_from.contains j))))

/-- `Round1::expects_messages` (`src/threshold_bls/state_machine/sign/rounds.rs`):
a fresh round-1 signing store. `LocalKey` fields are passed flattened. -/
def ReceiveFirstValidPartialSigs.expects {q : ℕ} (i n : ℕ) (H_x : ZMod q)
    (vk_vec : List (ZMod q)) (secret_holders threshold : ℕ) :
    ReceiveFirstValidPartialSigs q :=
  ⟨[], [], i, H_x, vk_vec, n, secret_holders, threshold⟩

/-- Reachable states of the round-1 signing message store: a fresh store
(`expects_messages`) followed by any number of successful `push_msg` calls. -/
inductive SigStoreReachable {q : ℕ} (chal : Chal q) :
    ReceiveFirstValidPartialSigs q → Prop where
  | init (i n : ℕ) (H_x : ZMod q) (vk_vec : List (ZMod q))
      (secret_holders threshold : ℕ) :
      SigStoreReachable chal
        (ReceiveFirstValidPartialSigs.expects i n H_x vk_vec secret_holders threshold)
  | push (st st2 : ReceiveFirstValidPartialSigs q) (m : Msg (ℕ × PartialSignature q))
      (h : SigStoreReachable chal st) (hp : st.push_msg chal m = Except.ok st2) :
      SigStoreReachable chal st2

/-- `LocalKey` (`src/threshold_bls/state_machine/keygen/rounds.rs`): the
persisted DKG output — shared keys, full verification-key vector, and `(i,t,n)`. -/
structure LocalKey (q : ℕ) where
  shared_keys : SharedKeys q
  vk_vec : List (ZMod q)
  i : ℕ
  t : ℕ
  n : ℕ
deriving DecidableEq

/-- `ProceedError` of the signing rounds
(`src/threshold_bls/state_machine/sign/rounds.rs`). -/
inductive SignProceedError where
  | PartySentOutOfRangeIndex (who claimed_index : ℕ)
  | PartialSignatureVerification (e : Error)
deriving DecidableEq

/-- `Error` of the signing state machine (`src/threshold_bls/state_machine/sign.rs`).
`RetrieveRoundMessages` and `StoreGone` are the `InternalError` variants. -/
inductive SignError where
  | ProceedRound (e : SignProceedError)
  | TooFewParties
  | TooManyParties
  | InvalidPartyIndex
  | HandleMessage (e : StoreErr)
  | ReceivedOutOfOrderMessage (current_round msg_round : ℕ)
  | DoublePickResult
  | RetrieveRoundMessages (e : StoreErr)
  | StoreGone
deriving DecidableEq

/-- Signing `Round0` (`src/threshold_bls/state_machine/sign/rounds.rs`). -/
structure SignRound0 (q : ℕ) where
  key : LocalKey q
  message : List ℕ
  i : ℕ
  n : ℕ
deriving DecidableEq

/-- Signing `Round1` (`src/threshold_bls/state_machine/sign/rounds.rs`). -/
structure SignRound1 (q : ℕ) where
  key : LocalKey q
  message : ZMod q
  psig : PartialSignature q
deriving DecidableEq

/-- `Round0::is_expensive` of signing. -/
def SignRound0.is_expensive {q : ℕ} (_r : SignRound0 q) : Bool := true

/-- `Round1::is_expensive` of signing. -/
def SignRound1.is_expensive {q : ℕ} (_r : SignRound1 q) : Bool := true

/-- Signing `Round0::proceed`: partial-sign the message (proof nonce passed
explicitly) and broadcast `(key.i, partial_sig)` — the keygen-time index
travels with the partial signature. -/
def SignRound0.proceed {q : ℕ} (chal : Chal q) (Hc : HashToCurve q)
    (nonce : ZMod q) (r : SignRound0 q) :
    SignRound1 q × Msg (ℕ × PartialSignature q) :=
  let ps := r.key.shared_keys.partSign chal Hc nonce r.message
  (⟨r.key, ps.2, ps.1⟩, ⟨r.i, none, (r.key.i, ps.1)⟩)

/-- Signing `Round1::proceed`: append one's own `(key.i, psig)` to the received
pairs, reject keygen indices outside `[1, key.n]` (blaming the first offender),
select `vkⱼ = vk_vec[keygen_index − 1]`, shift the indices to 0-based and call
`combine`. `none` models the panics of the underlying indexing/slicing. -/
def SignRound1.proceed {q : ℕ} (chal : Chal q) (r : SignRound1 q)
    (input : List (ℕ × PartialSignature q)) :
    Option (Except SignProceedError (ZMod q × BLSSignature q)) :=
  let all := input ++ [(r.key.i, r.psig)]
  match all.findIdx? (fun p => decide (p.1 = 0 ∨ r.key.n < p.1)) with
  | some k =>
      some (Except.error (SignProceedError.PartySentOutOfRangeIndex (k + 1)
        ((all.getD k (0, psigDefault q)).1)))
  | none =>
      if all.any (fun p => r.key.vk_vec.length < p.1) then none
      else
        let vk_vec := all.map (fun p => r.key.vk_vec.getD (p.1 - 1) 0)
        let indexes := all.map (fun p => p.1 - 1)
        let sigs := all.map Prod.snd
        (r.key.shared_keys.combine chal vk_vec sigs r.message indexes).map
          (fun res => match res with
            | Except.error e =>
                Except.error (SignProceedError.PartialSignatureVerification e)
            | Except.ok sig => Except.ok (r.message, sig))

/-- The round position `R` of the signing state machine
(`src/threshold_bls/state_machine/sign.rs`). -/
inductive SignR (q : ℕ) where
  | round0 (r : SignRound0 q)
  | round1 (r : SignRound1 q)
  | final (out : ZMod q × BLSSignature q)
  | gone
deriving DecidableEq

/-- The `Sign` state machine state (`src/threshold_bls/state_machine/sign.rs`). -/
structure SignState (q : ℕ) where
  round : SignR q
  msgs1 : Option (BroadcastStore (ℕ × PartialSignature q))
  msgs_queue : List (Msg (ℕ × PartialSignature q))
  party_i : ℕ
  party_n : ℕ
deriving DecidableEq

/-- `Sign::current_round`. -/
def SignState.currentRound {q : ℕ} (st : SignState q) : ℕ :=
  match st.round with
  | SignR.round0 _ => 0
  | SignR.round1 _ => 1
  | SignR.final _ => 2
  | SignR.gone => 2

/-- `Sign::total_rounds` (`src/threshold_bls/state_machine/sign.rs`). -/
def SignState.totalRounds {q : ℕ} (_st : SignState q) : Option ℕ :=
  some 4

/-- One pass of `Sign::proceed_round`'s `match`: returns the next state and the
`try_again` flag, or the error; `none` models a panic inside a round's body. -/
def signStep {q : ℕ} (chal : Chal q) (Hc : HashToCurve q) (nonce : ZMod q)
    (mayBlock : Bool) (st : SignState q) :
    Option (Except SignError (SignState q × Bool)) :=
  let store1WantsMore := (st.msgs1.map (fun s => s.wantsMore)).getD false
  match st.round with
  | SignR.round0 r =>
      if r.is_expensive = false ∨ mayBlock then
        let pr := r.proceed chal Hc nonce
        some (Except.ok ({ st with round := SignR.round1 pr.1,
                                   msgs_queue := st.msgs_queue ++ [pr.2] }, true))
      else some (Except.ok (st, false))
  | SignR.round1 r =>
      if store1WantsMore = false ∧ (r.is_expensive = false ∨ mayBlock) then
        match st.msgs1 with
        | none => some (Except.error SignError.StoreGone)
        | some store =>
          match store.finish with
          | Except.error e => some (Except.error (SignError.RetrieveRoundMessages e))
          | Except.ok msgs =>
            match r.proceed chal msgs with
            | none => none
            | some res =>
              match res with
              | Except.error e => some (Except.error (SignError.ProceedRound e))
              | Except.ok out =>
                  some (Except.ok ({ st with round := SignR.final out,
                                             msgs1 := none }, true))
      else some (Except.ok (st, false))
  | SignR.final _ => some (Except.ok (st, false))
  | SignR.gone => some (Except.ok (st, false))

/-- The retry loop of `proceed_round`, with explicit fuel. Rounds advance
strictly (`round0 → round1 → final`, and `final`/`gone` stop with
`try_again = false`), so fuel `3` is never exhausted from any state. -/
def signProceedLoop {q : ℕ} (chal : Chal q) (Hc : HashToCurve q)
    (nonce : ZMod q) (mayBlock : Bool) :
    ℕ → SignState q → Option (Except SignError (SignState q))
  | 0, st => some (Except.ok st)
  | fuel + 1, st =>
    match signStep chal Hc nonce mayBlock st with
    | none => none
    | some res =>
      match res with
      | Except.error e => some (Except.error e)
      | Except.ok pr =>
        if pr.2 then signProceedLoop chal Hc nonce mayBlock fuel pr.1
        else some (Except.ok pr.1)

/-- `Sign::proceed_round`. -/
def signProceedRound {q : ℕ} (chal : Chal q) (Hc : HashToCurve q)
    (nonce : ZMod q) (mayBlock : Bool) (st : SignState q) :
    Option (Except SignError (SignState q)) :=
  signProceedLoop chal Hc nonce mayBlock 3 st

/-- `Sign::handle_incoming` (`src/threshold_bls/state_machine/sign.rs`): a
round-1 message is pushed into the round-1 store whenever that store still
exists; only when the store was already consumed does the call fail with
`ReceivedOutOfOrderMessage`. On a successful push, `proceed_round(false)` runs. -/
def signHandleIncoming {q : ℕ} (chal : Chal q) (Hc : HashToCurve q)
    (nonce : ZMod q) (st : SignState q) (m : Msg (ℕ × PartialSignature q)) :
    Option (Except SignError (SignState q)) :=
  match st.msgs1 with
  | none =>
      some (Except.error (SignError.ReceivedOutOfOrderMessage st.currentRound 1))
  | some store =>
    match store.push m with
    | Except.error e => some (Except.error (SignError.HandleMessage e))
    | Except.ok store2 =>
        signProceedRound chal Hc nonce false { st with msgs1 := some store2 }

/-- `Sign::new` (`src/threshold_bls/state_machine/sign.rs`): validate
`t + 1 ≤ n' ≤ key.n` and `1 ≤ i ≤ n'`, build the round-0 state with a fresh
round-1 store, then run `proceed_round(false)`. -/
def signNew {q : ℕ} (chal : Chal q) (Hc : HashToCurve q) (nonce : ZMod q)
    (message : List ℕ) (i n : ℕ) (local_key : LocalKey q) :
    Option (Except SignError (SignState q)) :=
  if n < local_key.t + 1 then some (Except.error SignError.TooFewParties)
  else if local_key.n < n then some (Except.error SignError.TooManyParties)
  else if i = 0 ∨ n < i then some (Except.error SignError.InvalidPartyIndex)
  else
    signProceedRound chal Hc nonce false
      { round := SignR.round0 ⟨local_key, message, i, n⟩,
        msgs1 := some ⟨i, n, []⟩,
        msgs_queue := [],
        party_i := i,
        party_n := n }

/-- `ProceedError` of the keygen rounds
(`src/threshold_bls/state_machine/keygen/rounds.rs`). -/
inductive KeygenProceedError where
  | Round2VerifyCommitments (e : Error)
  | Round3VerifyVssConstruct (e : Error)
  | Round4VerifyDLogProof (e : Error)
deriving DecidableEq

/-- `Error` of the keygen state machine (referenced from
`src/threshold_bls/state_machine/keygen.rs`; variants as used there). -/
inductive KeygenError where
  | ProceedRound (e : KeygenProceedError)
  | TooFewParties
  | InvalidThreshold
  | InvalidPartyIndex
  | HandleMessage (e : StoreErr)
  | ReceivedOutOfOrderMessage (current_round msg_round : ℕ)
  | DoublePickResult
  | RetrieveRoundMessages (e : StoreErr)
  | StoreGone
deriving DecidableEq

/-- Keygen wire messages `M` (rounds 1–4). -/
inductive KeygenM (q : ℕ) where
  | round1 (m : KeyGenComm)
  | round2 (m : KeyGenDecom q)
  | round3 (m : VerifiableSS q × ZMod q)
  | round4 (m : DLogProof q)
deriving DecidableEq

/-- Randomness consumed by one party over a keygen run: the secret scalar `u`,
the commitment blind, the VSS coefficient randomness, and the DLog-proof nonce. -/
structure KeygenRand (q : ℕ) where
  u : ZMod q
  blind : ℤ
  vssCoef : List (ZMod q)
  dlogNonce : ZMod q

/-- Keygen `Round0` (`src/threshold_bls/state_machine/keygen/rounds.rs`). -/
structure KRound0 where
  party_i : ℕ
  t : ℕ
  n : ℕ
deriving DecidableEq

/-- Keygen `Round1`. -/
structure KRound1 (q : ℕ) where
  keys : Keys q
  comm : KeyGenComm
  decom : KeyGenDecom q
  party_i : ℕ
  t : ℕ
  n : ℕ
deriving DecidableEq

/-- Keygen `Round2`. -/
structure KRound2 (q : ℕ) where
  keys : Keys q
  received_comm : List KeyGenComm
  decom : KeyGenDecom q
  party_i : ℕ
  t : ℕ
  n : ℕ
deriving DecidableEq

/-- Keygen `Round3`. -/
structure KRound3 (q : ℕ) where
  keys : Keys q
  y_vec : List (ZMod q)
  index : ℕ
  own_vss : VerifiableSS q
  own_share : ZMod q
  party_i : ℕ
  t : ℕ
  n : ℕ
deriving DecidableEq

/-- Keygen `Round4`. -/
structure KRound4 (q : ℕ) where
  shared_keys : SharedKeys q
  own_dlog_proof : DLogProof q
  party_i : ℕ
  t : ℕ
  n : ℕ
deriving DecidableEq

/-- Keygen `Round0::is_expensive`. -/
def KRound0.is_expensive (_r : KRound0) : Bool := true

/-- Keygen `Round1::is_expensive` — the only cheap keygen round. -/
def KRound1.is_expensive {q : ℕ} (_r : KRound1 q) : Bool := false

/-- Keygen `Round2::is_expensive`. -/
def KRound2.is_expensive {q : ℕ} (_r : KRound2 q) : Bool := true

/-- Keygen `Round3::is_expensive`. -/
def KRound3.is_expensive {q : ℕ} (_r : KRound3 q) : Bool := true

/-- Keygen `Round4::is_expensive`. -/
def KRound4.is_expensive {q : ℕ} (_r : KRound4 q) : Bool := true

/-- Keygen `Round0::proceed`: create `Keys` with the 0-based party index
`party_i − 1`, broadcast the commitment. -/
def KRound0.proceed {q : ℕ} (Hcom : CommitHash) (enc : PointBytes q)
    (rand : KeygenRand q) (r : KRound0) : KRound1 q × Msg (KeygenM q) :=
  let keys := Keys.phase1_create rand.u (r.party_i - 1)
  let cd := keys.phase1_broadcast Hcom enc rand.blind
  (⟨keys, cd.1, cd.2, r.party_i, r.t, r.n⟩,
   ⟨r.party_i, none, KeygenM.round1 cd.1⟩)

/-- Keygen `Round1::proceed`: broadcast the decommitment; collect the received
commitments (own included at position `party_i − 1`). -/
def KRound1.proceed {q : ℕ} (r : KRound1 q) (input : List KeyGenComm) :
    KRound2 q × Msg (KeygenM q) :=
  (⟨r.keys, intoVecIncludingMe r.party_i r.comm input, r.decom, r.party_i, r.t, r.n⟩,
   ⟨r.party_i, none, KeygenM.round2 r.decom⟩)

/-- Keygen `Round2::proceed`: open all commitments and deal VSS shares
(`phase1_verify_com_phase2_distribute`), sending `(scheme, share_j)` to every
`j ≠ party_i`. The own share is read at vector position `party_i − 1`. -/
def KRound2.proceed {q : ℕ} (Hcom : CommitHash) (enc : PointBytes q)
    (rand : KeygenRand q) (r : KRound2 q) (input : List (KeyGenDecom q)) :
    Except KeygenProceedError (KRound3 q × List (Msg (KeygenM q))) :=
  let params : ShamirSecretSharing := ⟨r.t, r.n⟩
  let received_decom := intoVecIncludingMe r.party_i r.decom input
  match r.keys.phase1_verify_com_phase2_distribute Hcom enc rand.vssCoef params
      received_decom r.received_comm with
  | Except.error e => Except.error (KeygenProceedError.Round2VerifyCommitments e)
  | Except.ok (vss_scheme, secret_shares, index) =>
    let outMsgs := (List.range secret_shares.length).filterMap fun j =>
      if j + 1 = r.party_i then none
      else some (⟨r.party_i, some (j + 1),
        KeygenM.round3 (vss_scheme, secret_shares.getD j 0)⟩ : Msg (KeygenM q))
    Except.ok (⟨r.keys, received_decom.map (fun d => d.y_i), index, vss_scheme,
      secret_shares.getD (r.party_i - 1) 0, r.party_i, r.t, r.n⟩, outMsgs)

/-- Keygen `Round3::proceed`: validate all VSS shares and schemes, build the
`SharedKeys`, broadcast the DLog proof
(`phase2_verify_vss_construct_keypair_prove_dlog` at 1-based index `index + 1`). -/
def KRound3.proceed {q : ℕ} (chalD : ChalD q) (rand : KeygenRand q)
    (r : KRound3 q) (input : List (VerifiableSS q × ZMod q)) :
    Except KeygenProceedError (KRound4 q × Msg (KeygenM q)) :=
  let params : ShamirSecretSharing := ⟨r.t, r.n⟩
  let all := intoVecIncludingMe r.party_i (r.own_vss, r.own_share) input
  match Keys.phase2_verify_vss_construct_keypair_prove_dlog chalD rand.dlogNonce
      r.keys params r.y_vec (all.map Prod.snd) (all.map Prod.fst) (r.index + 1) with
  | Except.error e => Except.error (KeygenProceedError.Round3VerifyVssConstruct e)
  | Except.ok (shared_keys, dlog_proof) =>
    Except.ok (⟨shared_keys, dlog_proof, r.party_i, r.t, r.n⟩,
      ⟨r.party_i, none, KeygenM.round4 dlog_proof⟩)

/-- Keygen `Round4::proceed`: verify all DLog proofs and emit the `LocalKey`
with `vk_vec` the proofs' public keys in party order. -/
def KRound4.proceed {q : ℕ} (chalD : ChalD q) (r : KRound4 q)
    (input : List (DLogProof q)) : Except KeygenProceedError (LocalKey q) :=
  let params : ShamirSecretSharing := ⟨r.t, r.n⟩
  let dlog_proofs := intoVecIncludingMe r.party_i r.own_dlog_proof input
  match Keys.verify_dlog_proofs chalD params dlog_proofs with
  | Except.error e => Except.error (KeygenProceedError.Round4VerifyDLogProof e)
  | Except.ok _ =>
    Except.ok ⟨r.shared_keys, dlog_proofs.map (fun pf => pf.pk), r.party_i, r.t, r.n⟩

/-- The round position `R` of the keygen state machine. -/
inductive KeygenR (q : ℕ) where
  | round0 (r : KRound0)
  | round1 (r : KRound1 q)
  | round2 (r : KRound2 q)
  | round3 (r : KRound3 q)
  | round4 (r : KRound4 q)
  | final (k : LocalKey q)
  | gone
deriving DecidableEq

/-- The `Keygen` state machine state (`src/threshold_bls/state_machine/keygen.rs`). -/
structure KeygenState (q : ℕ) where
  round : KeygenR q
  msgs1 : Option (BroadcastStore KeyGenComm)
  msgs2 : Option (BroadcastStore (KeyGenDecom q))
  msgs3 : Option (P2PStore (VerifiableSS q × ZMod q))
  msgs4 : Option (BroadcastStore (DLogProof q))
  msgs_queue : List (Msg (KeygenM q))
  party_i : ℕ
  party_n : ℕ
deriving DecidableEq

/-- `Keygen::current_round`. -/
def KeygenState.currentRound {q : ℕ} (st : KeygenState q) : ℕ :=
  match st.round with
  | KeygenR.round0 _ => 0
  | KeygenR.round1 _ => 1
  | KeygenR.round2 _ => 2
  | KeygenR.round3 _ => 3
  | KeygenR.round4 _ => 4
  | KeygenR.final _ => 5
  | KeygenR.gone => 5

/-- One pass of `Keygen::proceed_round`'s `match`; `none` models a panic
(a consumed store reached again, or a panic inside a round body). -/
def keygenStep {q : ℕ} (Hcom : CommitHash) (enc : PointBytes q)
    (chalD : ChalD q) (rand : KeygenRand q) (mayBlock : Bool)
    (st : KeygenState q) : Option (Except KeygenError (KeygenState q × Bool)) :=
  let wm1 := (st.msgs1.map (fun s => s.wantsMore)).getD false
  let wm2 := (st.msgs2.map (fun s => s.wantsMore)).getD false
  let wm3 := (st.msgs3.map (fun s => s.wantsMore)).getD false
  let wm4 := (st.msgs4.map (fun s => s.wantsMore)).getD false
  match st.round with
  | KeygenR.round0 r =>
      if r.is_expensive = false ∨ mayBlock then
        let pr := r.proceed Hcom enc rand
        some (Except.ok ({ st with round := KeygenR.round1 pr.1,
                                   msgs_queue := st.msgs_queue ++ [pr.2] }, true))
      else some (Except.ok (st, false))
  | KeygenR.round1 r =>
      if wm1 = false ∧ (r.is_expensive = false ∨ mayBlock) then
        match st.msgs1 with
        | none => none
        | some store =>
          match store.finish with
          | Except.error e => some (Except.error (KeygenError.RetrieveRoundMessages e))
          | Except.ok msgs =>
            let pr := r.proceed msgs
            some (Except.ok ({ st with round := KeygenR.round2 pr.1,
                                       msgs1 := none,
                                       msgs_queue := st.msgs_queue ++ [pr.2] }, true))
      else some (Except.ok (st, false))
  | KeygenR.round2 r =>
      if wm2 = false ∧ (r.is_expensive = false ∨ mayBlock) then
        match st.msgs2 with
        | none => none
        | some store =>
          match store.finish with
          | Except.error e => some (Except.error (KeygenError.RetrieveRoundMessages e))
          | Except.ok msgs =>
            match r.proceed Hcom enc rand msgs with
            | Except.error e => some (Except.error (KeygenError.ProceedRound e))
            | Except.ok pr =>
                some (Except.ok ({ st with round := KeygenR.round3 pr.1,
                                           msgs2 := none,
                                           msgs_queue := st.msgs_queue ++ pr.2 }, true))
      else some (Except.ok (st, false))
  | KeygenR.round3 r =>
      if wm3 = false ∧ (r.is_expensive = false ∨ mayBlock) then
        match st.msgs3 with
        | none => none
        | some store =>
          match store.finish with
          | Except.error e => some (Except.error (KeygenError.RetrieveRoundMessages e))
          | Except.ok msgs =>
            match r.proceed chalD rand msgs with
            | Except.error e => some (Except.error (KeygenError.ProceedRound e))
            | Except.ok pr =>
                some (Except.ok ({ st with round := KeygenR.round4 pr.1,
                                           msgs3 := none,
                                           msgs_queue := st.msgs_queue ++ [pr.2] }, true))
      else some (Except.ok (st, false))
  | KeygenR.round4 r =>
      if wm4 = false ∧ (r.is_expensive = false ∨ mayBlock) then
        match st.msgs4 with
        | none => none
        | some store =>
          match store.finish with
          | Except.error e => some (Except.error (KeygenError.RetrieveRoundMessages e))
          | Except.ok msgs =>
            match r.proceed chalD msgs with
            | Except.error e => some (Except.error (KeygenError.ProceedRound e))
            | Except.ok key =>
                some (Except.ok ({ st with round := KeygenR.final key,
                                           msgs4 := none }, true))
      else some (Except.ok (st, false))
  | KeygenR.final _ => some (Except.ok (st, false))
  | KeygenR.gone => some (Except.ok (st, false))

/-- The retry loop of keygen's `proceed_round`, with explicit fuel. Rounds
advance strictly through at most six states, so fuel `6` is never exhausted. -/
def keygenProceedLoop {q : ℕ} (Hcom : CommitHash) (enc : PointBytes q)
    (chalD : ChalD q) (rand : KeygenRand q) (mayBlock : Bool) :
    ℕ → KeygenState q → Option (Except KeygenError (KeygenState q))
  | 0, st => some (Except.ok st)
  | fuel + 1, st =>
    match keygenStep Hcom enc chalD rand mayBlock st with
    | none => none
    | some res =>
      match res with
      | Except.error e => some (Except.error e)
      | Except.ok pr =>
        if pr.2 then keygenProceedLoop Hcom enc chalD rand mayBlock fuel pr.1
        else some (Except.ok pr.1)

/-- `Keygen::proceed_round`. -/
def keygenProceedRound {q : ℕ} (Hcom : CommitHash) (enc : PointBytes q)
    (chalD : ChalD q) (rand : KeygenRand q) (mayBlock : Bool)
    (st : KeygenState q) : Option (Except KeygenError (KeygenState q)) :=
  keygenProceedLoop Hcom enc chalD rand mayBlock 6 st

/-- `Keygen::handle_incoming` (`src/threshold_bls/state_machine/keygen.rs`): a
round-`k` message is pushed into store `k` whenever that store still exists;
only when the store was already consumed does the call fail with
`ReceivedOutOfOrderMessage`. On a successful push, `proceed_round(false)` runs. -/
def keygenHandleIncoming {q : ℕ} (Hcom : CommitHash) (enc : PointBytes q)
    (chalD : ChalD q) (rand : KeygenRand q) (st : KeygenState q)
    (m : Msg (KeygenM q)) : Option (Except KeygenError (KeygenState q)) :=
  match m.body with
  | KeygenM.round1 b =>
    match st.msgs1 with
    | none => some (Except.error (KeygenError.ReceivedOutOfOrderMessage st.currentRound 1))
    | some store =>
      match store.push ⟨m.sender, m.receiver, b⟩ with
      | Except.error e => some (Except.error (KeygenError.HandleMessage e))
      | Except.ok store2 =>
          keygenProceedRound Hcom enc chalD rand false { st with msgs1 := some store2 }
  | KeygenM.round2 b =>
    match st.msgs2 with
    | none => some (Except.error (KeygenError.ReceivedOutOfOrderMessage st.currentRound 2))
    | some store =>
      match store.push ⟨m.sender, m.receiver, b⟩ with
      | Except.error e => some (Except.error (KeygenError.HandleMessage e))
      | Except.ok store2 =>
          keygenProceedRound Hcom enc chalD rand false { st with msgs2 := some store2 }
  | KeygenM.round3 b =>
    match st.msgs3 with
    | none => some (Except.error (KeygenError.ReceivedOutOfOrderMessage st.currentRound 3))
    | some store =>
      match store.push ⟨m.sender, m.receiver, b⟩ with
      | Except.error e => some (Except.error (KeygenError.HandleMessage e))
      | Except.ok store2 =>
          keygenProceedRound Hcom enc chalD rand false { st with msgs3 := some store2 }
  | KeygenM.round4 b =>
    match st.msgs4 with
    | none => some (Except.error (KeygenError.ReceivedOutOfOrderMessage st.currentRound 4))
    | some store =>
      match store.push ⟨m.sender, m.receiver, b⟩ with
      | Except.error e => some (Except.error (KeygenError.HandleMessage e))
      | Except.ok store2 =>
          keygenProceedRound Hcom enc chalD rand false { st with msgs4 := some store2 }

/-- `Keygen::new` (`src/threshold_bls/state_machine/keygen.rs`): validate
`n ≥ 2`, `1 ≤ t ≤ n − 1`, `1 ≤ i ≤ n`; build the round-0 state with the four
fresh stores; run `proceed_round(false)`. -/
def keygenNew {q : ℕ} (Hcom : CommitHash) (enc : PointBytes q)
    (chalD : ChalD q) (rand : KeygenRand q) (i t n : ℕ) :
    Option (Except KeygenError (KeygenState q)) :=
  if n < 2 then some (Except.error KeygenError.TooFewParties)
  else if t = 0 ∨ n ≤ t then some (Except.error KeygenError.InvalidThreshold)
  else if i = 0 ∨ n < i then some (Except.error KeygenError.InvalidPartyIndex)
  else
    keygenProceedRound Hcom enc chalD rand false
      { round := KeygenR.round0 ⟨i, t, n⟩,
        msgs1 := some ⟨i, n, []⟩,
        msgs2 := some ⟨i, n, []⟩,
        msgs3 := some ⟨i, n, []⟩,
        msgs4 := some ⟨i, n, []⟩,
        msgs_queue := [],
        party_i := i,
        party_n := n }

/-- Type of the BDN18 coefficient hash (`HSha256::create_hash_from_ge` over a
list of G2 points), producing a `BigInt`. Abstract external primitive. -/
def HashGE (q : ℕ) : Type := List (ZMod q) → ℤ

/-- `h1` (`src/aggregated_bls/mod.rs`): hash over `pk_vec[index]` prepended to
the whole of `pk_vec`. -/
def h1 {q : ℕ} (Hg : HashGE q) (index : ℕ) (pk_vec : List (ZMod q)) : ℤ :=
  Hg (pk_vec.getD index 0 :: pk_vec)

/-- `Keys::aggregate` (`src/aggregated_bls/party_i.rs`): fold starting from the
G2 generator, each element contributing `pk_vec[i] · h1(i, pk_vec)` where `i` is
the *first* position of the element in `pk_vec`, then subtract the generator. -/
def aggregate {q : ℕ} (Hg : HashGE q) (pk_vec : List (ZMod q)) : ZMod q :=
  (pk_vec.foldl (fun acc x =>
      acc + pk_vec.getD (pk_vec.indexOf x) 0
        * ((h1 Hg (pk_vec.indexOf x) pk_vec : ℤ) : ZMod q)) 1) - 1

/-- The clean specification form of BDN18 key aggregation (§4.9):
`APK = Σⱼ pk_vec[j] · aⱼ` with `aⱼ = h1(j, pk_vec)`. Stated for comparison
against `aggregate`. -/
def aggregateSpec {q : ℕ} (Hg : HashGE q) (pk_vec : List (ZMod q)) : ZMod q :=
  ((List.range pk_vec.length).map
    (fun j => pk_vec.getD j 0 * ((h1 Hg j pk_vec : ℤ) : ZMod q))).sum

/-- `Keys::core_aggregate_verify` (`src/aggregated_bls/party_i.rs`): compare the
Miller-loop product `Πⱼ e(H(msgⱼ), apkⱼ)` (over the zip of hashed messages and
aggregated keys) with `e(σ, g2)`; products of pairings are sums in
discrete-log form. -/
def coreAggregateVerify {q : ℕ} (Hc : HashToCurve q) (apk_vec : List (ZMod q))
    (msg_vec : List (List ℕ)) (sig : BLSSignature q) : Bool :=
  decide ((((msg_vec.map Hc).zip apk_vec).map (fun p => p.1 * p.2)).sum
    = sig.sigma * 1)

/-- `Keys::aggregate_verify` (`src/aggregated_bls/party_i.rs`): return `false`
whenever two messages of the batch coincide (the `HashSet` size check),
otherwise run the pairing-product check. -/
def aggregateVerify {q : ℕ} (Hc : HashToCurve q) (apk_vec : List (ZMod q))
    (msg_vec : List (List ℕ)) (sig : BLSSignature q) : Bool :=
  if msg_vec.toFinset.card ≠ msg_vec.length then false
  else coreAggregateVerify Hc apk_vec msg_vec sig

/- Concrete instantiations of the abstract hash parameters, used by the
closed-form witnesses and counterexamples below. -/

/-- A concrete ECDDH challenge function: constantly `1`. -/
def chalOne (q : ℕ) : Chal q := fun _ _ _ _ _ _ => 1

/-- A concrete DLog challenge function: constantly `1`. -/
def chalDOne (q : ℕ) : ChalD q := fun _ _ => 1

/-- A concrete hash-to-curve function: constantly `3`. -/
def hcConst (q : ℕ) : HashToCurve q := fun _ => 3

/-- A concrete commitment hash returning its message (injective in the message
for every fixed blind). -/
def hcomFst : CommitHash := fun m _ => m

/-- A concrete point encoding: the single byte `1` for every point. -/
def encOne (q : ℕ) : PointBytes q := fun _ => [1]

/-- A valid partial signature of party `0` under `chalOne`/`hcConst` for the
secret share `sk₀ = 1` over `ZMod 7`: `σ₀ = 3·1` with proof `(0, 0, z = 1)`. -/
def psig7 : PartialSignature 7 := ⟨0, 3, ⟨0, 0, 1⟩⟩

/-- Concrete `SharedKeys` over `ZMod 7` with parameters `(t, n) = (1, 2)`. -/
def sk7 : SharedKeys 7 := ⟨0, ⟨1, 2⟩, 0, 1⟩

/-- Concrete `LocalKey` over `ZMod 7` with `(i, t, n) = (1, 1, 2)`. -/
def lk7 : LocalKey 7 := ⟨⟨0, ⟨1, 2⟩, 0, 0⟩, [0, 0], 1, 1, 2⟩

/-- The signing state produced by `Sign::new(m = [], i = 1, n = 2, lk7)`:
round 0, with a fresh round-1 store. -/
def signSt0 : SignState 7 :=
  ⟨SignR.round0 ⟨lk7, [], 1, 2⟩, some ⟨1, 2, []⟩, [], 1, 2⟩

/-- `signSt0` after a round-1 message from party 2 was handled at round 0: the
message sits buffered in the round-1 store and the round is unchanged. -/
def signSt1 : SignState 7 :=
  ⟨SignR.round0 ⟨lk7, [], 1, 2⟩, some ⟨1, 2, [(2, (2, psigDefault 7))]⟩, [], 1, 2⟩

/-- The round a keygen wire message belongs to. -/
def KeygenM.roundOf {q : ℕ} : KeygenM q → ℕ
  | KeygenM.round1 _ => 1
  | KeygenM.round2 _ => 2
  | KeygenM.round3 _ => 3
  | KeygenM.round4 _ => 4

/-- Whether the keygen store for round `k` has already been consumed
(taken by that round's `proceed`). -/
def KeygenState.storeConsumed {q : ℕ} (st : KeygenState q) (k : ℕ) : Prop :=
  match k with
  | 1 => st.msgs1 = none
  | 2 => st.msgs2 = none
  | 3 => st.msgs3 = none
  | 4 => st.msgs4 = none
  | _ => False

/-- `7` is prime: lets the concrete `ZMod 7` witnesses use the field structure. -/
instance : Fact (Nat.Prime 7) := ⟨by norm_num⟩

/-! ## Theorems -/

/-- Folding `acc + f x` over a list equals the initial value plus the sum of the
mapped list. -/
theorem foldl_add_map {α M : Type} [AddCommMonoid M] (f : α → M) :
    ∀ (l : List α) (a : M), l.foldl (fun acc x => acc + f x) a = a + (l.map f).sum
  | [], a => by simp
  | x :: l, a => by
    rw [List.foldl_cons, foldl_add_map f l (a + f x), List.map_cons, List.sum_cons]
    rw [add_assoc]

/-- C9: `Keygen::new(i, t, n)` returns `TooFewParties` exactly when `n < 2`;
otherwise `InvalidThreshold` exactly when `t = 0` or `t ≥ n`; otherwise
`InvalidPartyIndex` exactly when `i = 0` or `i > n`; and exactly for
`n ≥ 2`, `1 ≤ t ≤ n − 1`, `1 ≤ i ≤ n` it constructs the round-0 state machine
(round 0, all four stores fresh). -/
theorem claim_C9_keygen_new_validation {q : ℕ} (Hcom : CommitHash)
    (enc : PointBytes q) (chalD : ChalD q) (rand : KeygenRand q) (i t n : ℕ) :
    (keygenNew Hcom enc chalD rand i t n
        = some (Except.error KeygenError.TooFewParties) ↔ n < 2)
    ∧ (keygenNew Hcom enc chalD rand i t n
        = some (Except.error KeygenError.InvalidThreshold)
        ↔ 2 ≤ n ∧ (t = 0 ∨ n ≤ t))
    ∧ (keygenNew Hcom enc chalD rand i t n
        = some (Except.error KeygenError.InvalidPartyIndex)
        ↔ 2 ≤ n ∧ 1 ≤ t ∧ t < n ∧ (i = 0 ∨ n < i))
    ∧ (keygenNew Hcom enc chalD rand i t n
        = some (Except.ok ⟨KeygenR.round0 ⟨i, t, n⟩, some ⟨i, n, []⟩,
            some ⟨i, n, []⟩, some ⟨i, n, []⟩, some ⟨i, n, []⟩, [], i, n⟩)
        ↔ 2 ≤ n ∧ 1 ≤ t ∧ t < n ∧ 1 ≤ i ∧ i ≤ n) := by
  unfold keygenNew
  split_ifs with h1 h2 h3 <;>
    refine ⟨?_, ?_, ?_, ?_⟩ <;>
    simp_all [keygenProceedRound, keygenProceedLoop, keygenStep,
      KRound0.is_expensive] <;>
    omega

/-- C6: the signing state machine's `total_rounds()` reports 4 even though the
machine has only two protocol rounds (its `current_round` never exceeds 2,
where 2 is already the terminal `Final`/`Gone` position). -/
theorem claim_C6_sign_total_rounds {q : ℕ} :
    ∀ st : SignState q, st.totalRounds = some 4 ∧ st.currentRound ≤ 2 := by
  intro st
  obtain ⟨r, m1, mq, pi, pn⟩ := st
  cases r <;> exact ⟨rfl, by simp [SignState.currentRound]⟩

/-- C2: `combine` called with exactly `t` partial signatures (all valid) passes
the length guard (which only requires `≥ t`) and then panics slicing
`tail[0..t]` / `s[0..t+1]` (modelled by `none`), instead of returning
`MisMatchedVectors`; with fewer than `t` it does return `MisMatchedVectors`.
Here `t = 1`, one valid partial signature. -/
theorem claim_C2_combine_exactly_t_panics :
    verifyPartialSig (chalOne 7) 3 psig7 1 = true
    ∧ SharedKeys.combine (chalOne 7) sk7 [1] [psig7] 3 [0] = none
    ∧ SharedKeys.combine (chalOne 7) sk7 [] [] 3 [0]
        = some (Except.error Error.SigningMisMatchedVectors) := by
  decide

/-- C3 counterexample: the commitment computed by `phase1_broadcast` hashes the
integer `from_bytes(bytes(y)) + i`, which differs from the hash of the byte
concatenation `bytes(y) ∥ i` claimed by the spec: with the identity-like hash
`hcomFst`, point encoding `[1]` and party index `1`, the code commits to
`1 + 1 = 2` while the concatenation gives `256·1 + 1 = 257`. -/
theorem claim_C3_counterexample :
    (Keys.phase1_broadcast hcomFst (encOne 5) 0 ⟨0, 0, 1⟩).1.com
      ≠ specConcatCommitment hcomFst (encOne 5) ⟨0, 0, 1⟩ 0 := by
  decide

/-- C3 (amended): `phase1_broadcast` returns the commitment
`H256(from_bytes(bytes(y_i)) + i, r)` — the hash of the *integer sum* of the
encoded point and the party index, blinded by `r` — together with the
decommitment `(r, y_i)`, and the decommitment re-commits to exactly that
commitment under the same index context. -/
theorem claim_C3_commitment_shape {q : ℕ} (Hcom : CommitHash)
    (enc : PointBytes q) (blind : ℤ) (k : Keys q) :
    (k.phase1_broadcast Hcom enc blind).1.com
      = Hcom (fromBytes (enc k.y_i) + (k.party_index : ℤ)) blind
    ∧ (k.phase1_broadcast Hcom enc blind).2.blind_factor = blind
    ∧ (k.phase1_broadcast Hcom enc blind).2.y_i = k.y_i
    ∧ Hcom (fromBytes (enc (k.phase1_broadcast Hcom enc blind).2.y_i)
          + (k.party_index : ℤ)) (k.phase1_broadcast Hcom enc blind).2.blind_factor
      = (k.phase1_broadcast Hcom enc blind).1.com :=
  ⟨rfl, rfl, rfl, rfl⟩

/-- C8: `aggregate_verify` returns `false` whenever two messages of the batch
are byte-for-byte equal, regardless of the other inputs: the `HashSet` size
check fires before any pairing computation. -/
theorem claim_C8_duplicate_messages {q : ℕ} (Hc : HashToCurve q)
    (apk_vec : List (ZMod q)) (msg_vec : List (List ℕ)) (sig : BLSSignature q)
    (i j : ℕ) (hij : i ≠ j) (hi : i < msg_vec.length) (hj : j < msg_vec.length)
    (heq : msg_vec.getD i [] = msg_vec.getD j []) :
    aggregateVerify Hc apk_vec msg_vec sig = false := by
  have hnd : ¬ msg_vec.Nodup := by
    intro hnd
    rw [List.getD_eq_getElem _ _ hi, List.getD_eq_getElem _ _ hj] at heq
    exact hij (hnd.getElem_inj_iff.mp heq)
  have hcard : msg_vec.toFinset.card ≠ msg_vec.length := by
    rw [List.card_toFinset]
    intro hlen
    have hded : msg_vec.dedup = msg_vec :=
      (List.dedup_sublist msg_vec).eq_of_length hlen
    exact hnd (hded ▸ List.nodup_dedup msg_vec)
  simp [aggregateVerify, hcard]

/-- Witness for C8 at a concrete batch with a repeated message. -/
theorem claim_C8_witness :
    aggregateVerify (hcConst 5) [1, 2] [[1], [1]] ⟨0⟩ = false :=
  claim_C8_duplicate_messages (hcConst 5) [1, 2] [[1], [1]] ⟨0⟩ 0 1
    (by decide) (by decide) (by decide) (by decide)

/-- Every reachable round-1 signing store holds at most `threshold` messages:
`push_msg` refuses to push once `wants_more` is false. -/
theorem sigStore_reachable_msgs_le {q : ℕ} (chal : Chal q)
    (st : ReceiveFirstValidPartialSigs q) (h : SigStoreReachable chal st) :
    st.msgs.length ≤ st.threshold := by
  induction h with
  | init i n H_x vk_vec sh th => simp [ReceiveFirstValidPartialSigs.expects]
  | push st st2 m hst hp ih =>
    unfold ReceiveFirstValidPartialSigs.push_msg at hp
    split_ifs at hp with h1 h2 h3 h4 h5 h6 h7
    all_goals injection hp with hp
    subst hp
    simp [ReceiveFirstValidPartialSigs.wants_more] at h5
    simp only [List.length_append, List.length_cons, List.length_nil]
    omega

/-- C10: on every reachable round-1 signing store state, the `u16` computation
`msgs.len() − threshold − 1` performed by `blame` underflows (the store never
holds more than `threshold` messages), so `blame` has no well-defined result —
modelled by `blame = none`. -/
theorem claim_C10_blame_underflows {q : ℕ} (chal : Chal q)
    (st : ReceiveFirstValidPartialSigs q) (h : SigStoreReachable chal st) :
    st.blame = none := by
  have hle := sigStore_reachable_msgs_le chal st h
  have hlt : ¬ (st.threshold + 1 ≤ st.msgs.length) := by omega
  simp [ReceiveFirstValidPartialSigs.blame,
    ReceiveFirstValidPartialSigs.blameLeft, hlt]

/-- Witness for C10: the fresh store created by `expects_messages` is reachable
and its `blame` already underflows. -/
theorem claim_C10_witness :
    ReceiveFirstValidPartialSigs.blame
      (ReceiveFirstValidPartialSigs.expects (q := 7) 1 2 3 [0, 0] 2 1) = none :=
  claim_C10_blame_underflows (chalOne 7) _ (SigStoreReachable.init 1 2 3 [0, 0] 2 1)

/-- Reading a list at the first index of one of its elements gives back that
element. -/
theorem getD_indexOf {α : Type} [DecidableEq α] (l : List α) (x : α)
    (hx : x ∈ l) (d : α) : l.getD (l.indexOf x) d = x := by
  rw [List.getD_eq_getElem _ _ (List.indexOf_lt_length.2 hx)]
  exact List.getElem_indexOf _

/-- C7: `Keys::aggregate` equals the clean form `Σⱼ pk_vec[j] · aⱼ` with
`aⱼ = h1(j, pk_vec)`: the fold's first-occurrence index lookup is harmless
because `h1` depends on the index only through `pk_vec[index]`, and the
generator added at the start is subtracted at the end. -/
theorem claim_C7_aggregate_eq_spec {q : ℕ} (Hg : HashGE q)
    (pk_vec : List (ZMod q)) :
    aggregate Hg pk_vec = aggregateSpec Hg pk_vec := by
  have hmap : (List.range pk_vec.length).map
      (fun j => pk_vec.getD j 0 * ((h1 Hg j pk_vec : ℤ) : ZMod q))
      = pk_vec.map (fun x => pk_vec.getD (pk_vec.indexOf x) 0
          * ((h1 Hg (pk_vec.indexOf x) pk_vec : ℤ) : ZMod q)) := by
    apply List.ext_getElem (by simp)
    intro k hk1 hk2
    simp only [List.getElem_map, List.getElem_range]
    have hklt : k < pk_vec.length := by simpa using hk2
    have hmem : pk_vec[k] ∈ pk_vec := List.getElem_mem hklt
    have hgd : pk_vec.getD (pk_vec.indexOf pk_vec[k]) 0 = pk_vec[k] :=
      getD_indexOf pk_vec (pk_vec[k]) hmem 0
    simp only [h1, hgd, List.getD_eq_getElem _ _ hklt]
  unfold aggregate aggregateSpec
  rw [foldl_add_map, hmap]
  ring

/-- `signStep` never produces a `ReceivedOutOfOrderMessage` error: its error
results are only `StoreGone`, `RetrieveRoundMessages` and `ProceedRound`. -/
theorem signStep_not_ooo {q : ℕ} (chal : Chal q) (Hc : HashToCurve q)
    (nonce : ZMod q) (mb : Bool) (st : SignState q) (e : SignError) (c r : ℕ)
    (h : signStep chal Hc nonce mb st = some (Except.error e)) :
    e ≠ SignError.ReceivedOutOfOrderMessage c r := by
  obtain ⟨rd, m1, mq, pi, pn⟩ := st
  cases rd with
  | round0 r0 =>
      simp only [signStep] at h
      split_ifs at h <;> simp at h
  | round1 r1 =>
      cases m1 with
      | none =>
          simp only [signStep] at h
          split_ifs at h with hc
          · simp at h
            subst h
            simp
          · simp at h
      | some store =>
          simp only [signStep] at h
          split_ifs at h with hc
          · rcases hfin : store.finish with e1 | msgs
            · rw [hfin] at h
              simp at h
              subst h
              simp
            · rw [hfin] at h
              simp at h
              rcases hpr : SignRound1.proceed chal r1 msgs with _ | res
              · rw [hpr] at h
                simp at h
              · rcases res with e2 | out <;> rw [hpr] at h <;> simp at h
                subst h
                simp
          · simp at h
  | final out =>
      simp only [signStep] at h
      simp at h
  | gone =>
      simp only [signStep] at h
      simp at h

/-- `keygenStep` never produces a `ReceivedOutOfOrderMessage` error: its error
results are only `RetrieveRoundMessages` and `ProceedRound`. -/
theorem keygenStep_not_ooo {q : ℕ} (Hcom : CommitHash) (enc : PointBytes q)
    (chalD : ChalD q) (rand : KeygenRand q) (mb : Bool) (st : KeygenState q)
    (e : KeygenError) (c r : ℕ)
    (h : keygenStep Hcom enc chalD rand mb st = some (Except.error e)) :
    e ≠ KeygenError.ReceivedOutOfOrderMessage c r := by
  obtain ⟨rd, m1, m2, m3, m4, mq, pi, pn⟩ := st
  cases rd with
  | round0 r0 =>
      simp only [keygenStep] at h
      split_ifs at h <;> simp at h
  | round1 r1 =>
      cases m1 with
      | none =>
          simp only [keygenStep] at h
          split_ifs at h <;> simp at h
      | some store =>
          simp only [keygenStep] at h
          split_ifs at h with hc
          · rcases hfin : store.finish with e1 | msgs
            · rw [hfin] at h
              simp at h
              subst h
              simp
            · rw [hfin] at h
              simp at h
          · simp at h
  | round2 r2 =>
      cases m2 with
      | none =>
          simp only [keygenStep] at h
          split_ifs at h <;> simp at h
      | some store =>
          simp only [keygenStep] at h
          split_ifs at h with hc
          · rcases hfin : store.finish with e1 | msgs
            · rw [hfin] at h
              simp at h
              subst h
              simp
            · rw [hfin] at h
              simp at h
              rcases hpr : KRound2.proceed Hcom enc rand r2 msgs with e2 | pr <;>
                rw [hpr] at h <;> simp at h
              subst h
              simp
          · simp at h
  | round3 r3 =>
      cases m3 with
      | none =>
          simp only [keygenStep] at h
          split_ifs at h <;> simp at h
      | some store =>
          simp only [keygenStep] at h
          split_ifs at h with hc
          · rcases hfin : store.finish with e1 | msgs
            · rw [hfin] at h
              simp at h
              subst h
              simp
            · rw [hfin] at h
              simp at h
              rcases hpr : KRound3.proceed chalD rand r3 msgs with e2 | pr <;>
                rw [hpr] at h <;> simp at h
              subst h
              simp
          · simp at h
  | round4 r4 =>
      cases m4 with
      | none =>
          simp only [keygenStep] at h
          split_ifs at h <;> simp at h
      | some store =>
          simp only [keygenStep] at h
          split_ifs at h with hc
          · rcases hfin : store.finish with e1 | msgs
            · rw [hfin] at h
              simp at h
              subst h
              simp
            · rw [hfin] at h
              simp at h
              rcases hpr : KRound4.proceed chalD r4 msgs with e2 | key <;>
                rw [hpr] at h <;> simp at h
              subst h
              simp
          · simp at h
  | final k =>
      simp only [keygenStep] at h
      simp at h
  | gone =>
      simp only [keygenStep] at h
      simp at h

/-- `signProceedRound`'s retry loop never produces `ReceivedOutOfOrderMessage`. -/
theorem signProceedLoop_not_ooo {q : ℕ} (chal : Chal q) (Hc : HashToCurve q)
    (nonce : ZMod q) (mb : Bool) :
    ∀ (fuel : ℕ) (st : SignState q) (e : SignError) (c r : ℕ),
      signProceedLoop chal Hc nonce mb fuel st = some (Except.error e) →
      e ≠ SignError.ReceivedOutOfOrderMessage c r := by
  intro fuel
  induction fuel with
  | zero =>
      intro st e c r h
      simp [signProceedLoop] at h
  | succ n ih =>
      intro st e c r h
      rw [signProceedLoop] at h
      rcases hs : signStep chal Hc nonce mb st with _ | res <;> rw [hs] at h
      · simp at h
      · rcases res with e1 | pr
        · simp at h
          subst h
          exact signStep_not_ooo chal Hc nonce mb st e1 c r hs
        · simp only at h
          cases hb : pr.2 <;> rw [hb] at h
          · simp at h
          · simp only [if_true] at h
            exact ih pr.1 e c r h

/-- `keygenProceedRound`'s retry loop never produces `ReceivedOutOfOrderMessage`. -/
theorem keygenProceedLoop_not_ooo {q : ℕ} (Hcom : CommitHash)
    (enc : PointBytes q) (chalD : ChalD q) (rand : KeygenRand q) (mb : Bool) :
    ∀ (fuel : ℕ) (st : KeygenState q) (e : KeygenError) (c r : ℕ),
      keygenProceedLoop Hcom enc chalD rand mb fuel st = some (Except.error e) →
      e ≠ KeygenError.ReceivedOutOfOrderMessage c r := by
  intro fuel
  induction fuel with
  | zero =>
      intro st e c r h
      simp [keygenProceedLoop] at h
  | succ n ih =>
      intro st e c r h
      rw [keygenProceedLoop] at h
      rcases hs : keygenStep Hcom enc chalD rand mb st with _ | res <;> rw [hs] at h
      · simp at h
      · rcases res with e1 | pr
        · simp at h
          subst h
          exact keygenStep_not_ooo Hcom enc chalD rand mb st e1 c r hs
        · simp only at h
          cases hb : pr.2 <;> rw [hb] at h
          · simp at h
          · simp only [if_true] at h
            exact ih pr.1 e c r h

/-- C5 (amended): `handle_incoming` of the Sign and Keygen state machines
returns `ReceivedOutOfOrderMessage{current_round, msg_round}` precisely when the
store for the message's round has already been consumed (that round already
completed); messages of rounds not yet completed — including rounds later than
the current one — are pushed into that round's store (buffered, subject to the
store's own validation) rather than rejected as out of order. -/
theorem claim_C5_wrong_round_iff_store_consumed :
    (∀ (q : ℕ) (chal : Chal q) (Hc : HashToCurve q) (nonce : ZMod q)
        (st : SignState q) (m : Msg (ℕ × PartialSignature q)) (c r : ℕ),
        signHandleIncoming chal Hc nonce st m
            = some (Except.error (SignError.ReceivedOutOfOrderMessage c r))
          ↔ st.msgs1 = none ∧ c = st.currentRound ∧ r = 1)
    ∧ (∀ (q : ℕ) (Hcom : CommitHash) (enc : PointBytes q) (chalD : ChalD q)
        (rand : KeygenRand q) (st : KeygenState q) (m : Msg (KeygenM q)) (c r : ℕ),
        keygenHandleIncoming Hcom enc chalD rand st m
            = some (Except.error (KeygenError.ReceivedOutOfOrderMessage c r))
          ↔ st.storeConsumed m.body.roundOf ∧ c = st.currentRound
              ∧ r = m.body.roundOf) := by
  constructor
  · intro q chal Hc nonce st m c r
    rcases hm : st.msgs1 with _ | store
    · simp only [signHandleIncoming, hm]
      constructor
      · intro h
        simp only [Option.some.injEq, Except.error.injEq,
          SignError.ReceivedOutOfOrderMessage.injEq] at h
        exact ⟨by trivial, h.1.symm, h.2.symm⟩
      · rintro ⟨-, hc, hr⟩
        subst hc
        subst hr
        rfl
    · simp only [signHandleIncoming, hm]
      constructor
      · intro h
        exfalso
        rcases hp : store.push m with e1 | store2 <;> rw [hp] at h
        · simp at h
        · simp only [signProceedRound] at h
          exact (signProceedLoop_not_ooo chal Hc nonce false 3 _ _ c r h) rfl
      · rintro ⟨hnone, -, -⟩
        exact Option.noConfusion hnone
  · intro q Hcom enc chalD rand st m c r
    obtain ⟨ms, mr, mb⟩ := m
    cases mb with
    | round1 b =>
        rcases hm : st.msgs1 with _ | store
        · simp only [keygenHandleIncoming, hm, KeygenM.roundOf,
            KeygenState.storeConsumed]
          constructor
          · intro h
            simp only [Option.some.injEq, Except.error.injEq,
              KeygenError.ReceivedOutOfOrderMessage.injEq] at h
            exact ⟨by trivial, h.1.symm, h.2.symm⟩
          · rintro ⟨-, hc, hr⟩
            subst hc
            subst hr
            rfl
        · simp only [keygenHandleIncoming, hm, KeygenM.roundOf,
            KeygenState.storeConsumed]
          constructor
          · intro h
            exfalso
            rcases hp : store.push ⟨ms, mr, b⟩ with e1 | store2 <;> rw [hp] at h
            · simp at h
            · simp only [keygenProceedRound] at h
              exact (keygenProceedLoop_not_ooo Hcom enc chalD rand false 6 _ _ c r h) rfl
          · rintro ⟨hnone, -, -⟩
            exact Option.noConfusion hnone
    | round2 b =>
        rcases hm : st.msgs2 with _ | store
        · simp only [keygenHandleIncoming, hm, KeygenM.roundOf,
            KeygenState.storeConsumed]
          constructor
          · intro h
            simp only [Option.some.injEq, Except.error.injEq,
              KeygenError.ReceivedOutOfOrderMessage.injEq] at h
            exact ⟨by trivial, h.1.symm, h.2.symm⟩
          · rintro ⟨-, hc, hr⟩
            subst hc
            subst hr
            rfl
        · simp only [keygenHandleIncoming, hm, KeygenM.roundOf,
            KeygenState.storeConsumed]
          constructor
          · intro h
            exfalso
            rcases hp : store.push ⟨ms, mr, b⟩ with e1 | store2 <;> rw [hp] at h
            · simp at h
            · simp only [keygenProceedRound] at h
              exact (keygenProceedLoop_not_ooo Hcom enc chalD rand false 6 _ _ c r h) rfl
          · rintro ⟨hnone, -, -⟩
            exact Option.noConfusion hnone
    | round3 b =>
        rcases hm : st.msgs3 with _ | store
        · simp only [keygenHandleIncoming, hm, KeygenM.roundOf,
            KeygenState.storeConsumed]
          constructor
          · intro h
            simp only [Option.some.injEq, Except.error.injEq,
              KeygenError.ReceivedOutOfOrderMessage.injEq] at h
            exact ⟨by trivial, h.1.symm, h.2.symm⟩
          · rintro ⟨-, hc, hr⟩
            subst hc
            subst hr
            rfl
        · simp only [keygenHandleIncoming, hm, KeygenM.roundOf,
            KeygenState.storeConsumed]
          constructor
          · intro h
            exfalso
            rcases hp : store.push ⟨ms, mr, b⟩ with e1 | store2 <;> rw [hp] at h
            · simp at h
            · simp only [keygenProceedRound] at h
              exact (keygenProceedLoop_not_ooo Hcom enc chalD rand false 6 _ _ c r h) rfl
          · rintro ⟨hnone, -, -⟩
            exact Option.noConfusion hnone
    | round4 b =>
        rcases hm : st.msgs4 with _ | store
        · simp only [keygenHandleIncoming, hm, KeygenM.roundOf,
            KeygenState.storeConsumed]
          constructor
          · intro h
            simp only [Option.some.injEq, Except.error.injEq,
              KeygenError.ReceivedOutOfOrderMessage.injEq] at h
            exact ⟨by trivial, h.1.symm, h.2.symm⟩
          · rintro ⟨-, hc, hr⟩
            subst hc
            subst hr
            rfl
        · simp only [keygenHandleIncoming, hm, KeygenM.roundOf,
            KeygenState.storeConsumed]
          constructor
          · intro h
            exfalso
            rcases hp : store.push ⟨ms, mr, b⟩ with e1 | store2 <;> rw [hp] at h
            · simp at h
            · simp only [keygenProceedRound] at h
              exact (keygenProceedLoop_not_ooo Hcom enc chalD rand false 6 _ _ c r h) rfl
          · rintro ⟨hnone, -, -⟩
            exact Option.noConfusion hnone

/-- C5 counterexample: the freshly constructed Sign machine is at round 0, yet
a round-1 message from party 2 is accepted (`Ok`) and buffered in the round-1
store instead of being rejected with `ReceivedOutOfOrderMessage`. -/
theorem claim_C5_counterexample :
    signNew (chalOne 7) (hcConst 7) 0 [] 1 2 lk7 = some (Except.ok signSt0)
    ∧ SignState.currentRound signSt0 = 0
    ∧ signHandleIncoming (chalOne 7) (hcConst 7) 0 signSt0
        ⟨2, none, (2, psigDefault 7)⟩ = some (Except.ok signSt1) := by
  decide

/-- Horner evaluation of a coefficient list equals the power-sum form. -/
theorem polyEval_eq_sum {q : ℕ} (coeffs : List (ZMod q)) (x : ZMod q) :
    polyEval coeffs x
      = ∑ k ∈ Finset.range coeffs.length, coeffs.getD k 0 * x ^ k := by
  induction coeffs with
  | nil => simp [polyEval]
  | cons a cs ih =>
      have hstep : polyEval (a :: cs) x = a + x * polyEval cs x := rfl
      rw [hstep, ih, List.length_cons, Finset.sum_range_succ']
      simp only [List.getD_cons_succ, List.getD_cons_zero, pow_zero, mul_one]
      rw [Finset.mul_sum, add_comm]
      congr 1
      refine Finset.sum_congr rfl ?_
      intro k hk
      ring

/-- The polynomial built from a coefficient list evaluates like `polyEval`. -/
theorem coeffsPoly_eval {q : ℕ} [Fact (Nat.Prime q)] (coeffs : List (ZMod q))
    (x : ZMod q) :
    (∑ k ∈ Finset.range coeffs.length,
        Polynomial.C (coeffs.getD k 0) * Polynomial.X ^ k).eval x
      = polyEval coeffs x := by
  rw [polyEval_eq_sum, Polynomial.eval_finset_sum]
  refine Finset.sum_congr rfl ?_
  intro k hk
  simp

/-- The polynomial built from a coefficient list of length at most `n` has
degree below `n`. -/
theorem coeffsPoly_degree_lt {q : ℕ} [Fact (Nat.Prime q)]
    (coeffs : List (ZMod q)) (n : ℕ) (h : coeffs.length ≤ n) :
    (∑ k ∈ Finset.range coeffs.length,
        Polynomial.C (coeffs.getD k 0) * Polynomial.X ^ k).degree < (n : WithBot ℕ) := by
  refine lt_of_le_of_lt (Polynomial.degree_sum_le _ _) ?_
  rw [Finset.sup_lt_iff (by exact WithBot.bot_lt_coe n)]
  intro k hk
  rw [Finset.mem_range] at hk
  refine lt_of_le_of_lt (Polynomial.degree_C_mul_X_pow_le _ _) ?_
  exact_mod_cast (by omega : k < n)

/-- Lagrange interpolation at 0 over a list of 0-based indices (evaluation
points `j + 1`): for a polynomial of degree below the list length,
`Σⱼ F(j+1) · λⱼ(0) = F(0)` with the coefficients of `mapShareToNewParams`. -/
theorem lagrange_list_sum {q : ℕ} [Fact (Nat.Prime q)]
    (P : ShamirSecretSharing) (F : Polynomial (ZMod q)) (l : List ℕ)
    (hnd : l.Nodup)
    (hinj : ∀ a ∈ l, ∀ b ∈ l, ((a : ZMod q) = (b : ZMod q)) → a = b)
    (hdeg : F.degree < (l.length : WithBot ℕ)) :
    (l.map (fun j : ℕ => F.eval ((j : ZMod q) + 1)
        * mapShareToNewParams P j l)).sum = F.eval 0 := by
  have hvinj : Set.InjOn (fun j : ℕ => (j : ZMod q) + 1) l.toFinset := by
    intro a ha b hb hab
    refine hinj a (List.mem_toFinset.mp ha) b (List.mem_toFinset.mp hb) ?_
    have : (a : ZMod q) + 1 = (b : ZMod q) + 1 := hab
    exact add_right_cancel this
  have hcard : l.toFinset.card = l.length := List.toFinset_card_of_nodup hnd
  have hF := Lagrange.eq_interpolate (v := fun j : ℕ => (j : ZMod q) + 1)
    hvinj (f := F) (by rw [hcard]; exact hdeg)
  have heval : F.eval 0 = ∑ i ∈ l.toFinset,
      F.eval ((i : ZMod q) + 1)
        * (Lagrange.basis l.toFinset (fun j : ℕ => (j : ZMod q) + 1) i).eval 0 := by
    conv_lhs => rw [hF]
    rw [Lagrange.interpolate_apply, Polynomial.eval_finset_sum]
    refine Finset.sum_congr rfl ?_
    intro i hi
    rw [Polynomial.eval_mul, Polynomial.eval_C]
  have hbasis : ∀ i ∈ l.toFinset,
      (Lagrange.basis l.toFinset (fun j : ℕ => (j : ZMod q) + 1) i).eval 0
        = mapShareToNewParams P i l := by
    intro i hi
    rw [Lagrange.basis, Polynomial.eval_prod, mapShareToNewParams]
    have hfn : (l.filter (fun j => j ≠ i)).Nodup := hnd.filter _
    rw [← List.prod_toFinset _ hfn]
    have hfe : (l.filter (fun j => j ≠ i)).toFinset = l.toFinset.erase i := by
      rw [List.toFinset_filter]
      ext x
      simp [Finset.mem_erase, and_comm]
    rw [hfe]
    refine Finset.prod_congr rfl ?_
    intro j hj
    rw [Lagrange.basisDivisor, Polynomial.eval_mul, Polynomial.eval_C,
      Polynomial.eval_sub, Polynomial.eval_X, Polynomial.eval_C]
    have h1 : (0 : ZMod q) - ((j : ZMod q) + 1) = -((j : ZMod q) + 1) := by ring
    have h2 : ((i : ZMod q) + 1) - ((j : ZMod q) + 1)
        = -(((j : ZMod q) + 1) - ((i : ZMod q) + 1)) := by ring
    rw [h1, h2, inv_neg]
    ring
  calc (l.map (fun j : ℕ => F.eval ((j : ZMod q) + 1)
          * mapShareToNewParams P j l)).sum
      = ∑ i ∈ l.toFinset, F.eval ((i : ZMod q) + 1) * mapShareToNewParams P i l :=
        (List.sum_toFinset _ hnd).symm
    _ = ∑ i ∈ l.toFinset, F.eval ((i : ZMod q) + 1)
          * (Lagrange.basis l.toFinset (fun j : ℕ => (j : ZMod q) + 1) i).eval 0 :=
        Finset.sum_congr rfl (fun i hi => by rw [hbasis i hi])
    _ = F.eval 0 := heval.symm

/-- C1: for DKG-derived key material with parameters `(t, n)` — shares lying on
a degree-`≤ t` polynomial with `vk = g2·f(0)` — `combine`, called with at least
`t+1` partial signatures `σⱼ = H(m)·f(jᵢ+1)` (each passing ECDDH verification
against the matching `vk_vec` entry) and the corresponding 0-based index subset
`s`, returns `Ok(BLSSignature{σ})` with `σ = H(m)·f(0)` — the Lagrange
combination of the first `t+1` partial signatures — and this `σ` satisfies the
pairing check `e(H(m), vk) = e(σ, g2)`. The value `H(m)·f(0)` does not depend
on the subset, so every qualifying subset yields the identical signature. -/
theorem claim_C1_combine_lagrange {q : ℕ} [Fact (Nat.Prime q)]
    (chal : Chal q) (Hc : HashToCurve q) (msg : List ℕ) (t n : ℕ)
    (coeffs : List (ZMod q)) (sk : SharedKeys q)
    (vk_vec : List (ZMod q)) (psigs : List (PartialSignature q)) (s : List ℕ)
    (hpar : sk.params = ⟨t, n⟩)
    (hvk : sk.vk = polyEval coeffs 0)
    (hdeg : coeffs.length ≤ t + 1)
    (hlen : vk_vec.length = psigs.length)
    (hcount : t + 1 ≤ psigs.length)
    (hs : s.length = psigs.length)
    (hsn : s.length ≤ n)
    (hidx : ∀ k, k < psigs.length →
        (psigs.getD k (psigDefault q)).index = s.getD k 0)
    (hsig : ∀ k, k < t + 1 →
        (psigs.getD k (psigDefault q)).sigma_i
          = Hc msg * polyEval coeffs ((s.getD k 0 : ZMod q) + 1))
    (hnd : (s.take (t + 1)).Nodup)
    (hinj : ∀ a ∈ s.take (t + 1), ∀ b ∈ s.take (t + 1),
        ((a : ZMod q) = (b : ZMod q)) → a = b)
    (hver : ∀ k, k < vk_vec.length →
        verifyPartialSig chal (Hc msg) (psigs.getD k (psigDefault q))
          (vk_vec.getD k 0) = true) :
    sk.combine chal vk_vec psigs (Hc msg) s
        = some (Except.ok ⟨Hc msg * polyEval coeffs 0⟩)
    ∧ BLSSignature.verify Hc ⟨Hc msg * polyEval coeffs 0⟩ msg sk.vk = true := by
  have hth : sk.params.threshold = t := by rw [hpar]
  have hsc : sk.params.share_count = n := by rw [hpar]
  have hlag := lagrange_list_sum sk.params
    (∑ k ∈ Finset.range coeffs.length,
      Polynomial.C (coeffs.getD k 0) * Polynomial.X ^ k)
    (s.take (t + 1)) hnd hinj
    (by
      rw [List.length_take, Nat.min_eq_left (by omega)]
      exact coeffsPoly_degree_lt coeffs (t + 1) hdeg)
  simp only [coeffsPoly_eval] at hlag
  have hmapeq : (psigs.take (t + 1)).map
        (fun x => x.sigma_i
          * mapShareToNewParams sk.params x.index (s.take (t + 1)))
      = (s.take (t + 1)).map
        (fun j : ℕ => Hc msg * (polyEval coeffs ((j : ZMod q) + 1)
          * mapShareToNewParams sk.params j (s.take (t + 1)))) := by
    apply List.ext_getElem
    · simp only [List.length_map, List.length_take]
      omega
    · intro k hk1 hk2
      simp only [List.getElem_map]
      have hkt : k < t + 1 := by
        simp only [List.length_map, List.length_take] at hk1
        omega
      have hkp : k < psigs.length := by omega
      have hks : k < s.length := by omega
      have hidx' := hidx k hkp
      have hsig' := hsig k hkt
      rw [List.getD_eq_getElem _ _ hkp] at hidx' hsig'
      rw [List.getD_eq_getElem _ _ hks] at hidx' hsig'
      rw [List.getElem_take, List.getElem_take, hsig', hidx']
      ring
  constructor
  · rcases hp : psigs with _ | ⟨p0, tail⟩
    · rw [hp] at hcount
      simp at hcount
    · subst hp
      simp only [List.length_cons] at hlen hcount hs
      rw [SharedKeys.combine]
      simp only [hth, hsc]
      rw [if_neg (by
        simp only [List.length_cons]
        push_neg
        exact ⟨by omega, by omega, by omega, by omega⟩)]
      have hall : ((List.range vk_vec.length).all fun i =>
          verifyPartialSig chal (Hc msg)
            ((p0 :: tail).getD i (psigDefault q)) (vk_vec.getD i 0)) = true := by
        rw [List.all_eq_true]
        intro i hi
        rw [List.mem_range] at hi
        exact hver i hi
      rw [hall]
      rw [if_neg (by simp)]
      rw [if_pos (⟨by omega, by omega⟩ : t ≤ tail.length ∧ t + 1 ≤ s.length)]
      simp only [Option.some.injEq, Except.ok.injEq, BLSSignature.mk.injEq]
      have hfold : (tail.take t).foldl
            (fun acc x => acc + (x.sigma_i
              * mapShareToNewParams sk.params x.index (s.take (t + 1))))
            (p0.sigma_i * mapShareToNewParams sk.params p0.index (s.take (t + 1)))
          = (((p0 :: tail).take (t + 1)).map
              (fun x => x.sigma_i
                * mapShareToNewParams sk.params x.index (s.take (t + 1)))).sum := by
        rw [List.take_succ_cons, List.map_cons, List.sum_cons]
        exact foldl_add_map _ _ _
      rw [hfold, hmapeq, List.sum_map_mul_left, hlag]
  · simp only [BLSSignature.verify, decide_eq_true_eq, hvk]
    ring

/-- Witness for C1: a full 2-of-2 run over `ZMod 7` with `f = X`. -/
theorem claim_C1_witness :
    SharedKeys.combine (chalOne 7) sk7 [1, 2]
        [⟨0, 3, ⟨0, 0, 1⟩⟩, ⟨1, 6, ⟨0, 0, 2⟩⟩] (hcConst 7 []) [0, 1]
      = some (Except.ok ⟨hcConst 7 [] * polyEval [0, 1] 0⟩)
    ∧ BLSSignature.verify (hcConst 7) ⟨hcConst 7 [] * polyEval [0, 1] 0⟩ []
        sk7.vk = true := by
  have hpar : sk7.params = ⟨1, 2⟩ := rfl
  have hvk : sk7.vk = polyEval [0, 1] 0 := by decide
  have hdeg : ([0, 1] : List (ZMod 7)).length ≤ 1 + 1 := by decide
  have hlen : ([1, 2] : List (ZMod 7)).length
      = ([⟨0, 3, ⟨0, 0, 1⟩⟩, ⟨1, 6, ⟨0, 0, 2⟩⟩] : List (PartialSignature 7)).length := by
    decide
  have hcount : 1 + 1
      ≤ ([⟨0, 3, ⟨0, 0, 1⟩⟩, ⟨1, 6, ⟨0, 0, 2⟩⟩] : List (PartialSignature 7)).length := by
    decide
  have hs : ([0, 1] : List ℕ).length
      = ([⟨0, 3, ⟨0, 0, 1⟩⟩, ⟨1, 6, ⟨0, 0, 2⟩⟩] : List (PartialSignature 7)).length := by
    decide
  have hsn : ([0, 1] : List ℕ).length ≤ 2 := by decide
  have hidx : ∀ k, k < 2 →
      (([⟨0, 3, ⟨0, 0, 1⟩⟩, ⟨1, 6, ⟨0, 0, 2⟩⟩]
        : List (PartialSignature 7)).getD k (psigDefault 7)).index
        = ([0, 1] : List ℕ).getD k 0 := by
    intro k hk
    interval_cases k <;> decide
  have hsig : ∀ k, k < 1 + 1 →
      (([⟨0, 3, ⟨0, 0, 1⟩⟩, ⟨1, 6, ⟨0, 0, 2⟩⟩]
        : List (PartialSignature 7)).getD k (psigDefault 7)).sigma_i
        = hcConst 7 [] * polyEval [0, 1] ((([0, 1] : List ℕ).getD k 0 : ZMod 7) + 1) := by
    intro k hk
    interval_cases k <;> decide
  have hnd : (([0, 1] : List ℕ).take (1 + 1)).Nodup := by decide
  have hinj : ∀ a ∈ ([0, 1] : List ℕ).take (1 + 1),
      ∀ b ∈ ([0, 1] : List ℕ).take (1 + 1),
      ((a : ZMod 7) = (b : ZMod 7)) → a = b := by decide
  have hver : ∀ k, k < 2 →
      verifyPartialSig (chalOne 7) (hcConst 7 [])
        (([⟨0, 3, ⟨0, 0, 1⟩⟩, ⟨1, 6, ⟨0, 0, 2⟩⟩]
          : List (PartialSignature 7)).getD k (psigDefault 7))
        (([1, 2] : List (ZMod 7)).getD k 0) = true := by
    intro k hk
    interval_cases k <;> decide
  exact claim_C1_combine_lagrange (chalOne 7) (hcConst 7) [] 1 2 [0, 1]
    sk7 [1, 2] [⟨0, 3, ⟨0, 0, 1⟩⟩, ⟨1, 6, ⟨0, 0, 2⟩⟩] [0, 1]
    hpar hvk hdeg hlen hcount hs hsn hidx hsig hnd hinj hver

/-- C4: commitment round-trip of the keygen state machine's round 0/2. For
commitment vectors of the honest shape — position `j` holds the decommitment
`(r_j, y_j)` and a commitment hashed over `from_bytes(bytes(y_j)) + ctx_j` —
`phase1_verify_com_phase2_distribute` accepts exactly when every commitment's
index context `ctx j` equals its 0-based vector position `j` (injectivity of
the commitment hash gives the "only" direction). Honest parties built by
`Round0::proceed` via `phase1_create(party_i − 1)` commit with `ctx j = j`, so
the honest run is accepted. -/
theorem claim_C4_commitment_roundtrip {q : ℕ} (Hcom : CommitHash)
    (enc : PointBytes q) (k : Keys q) (coefRand : List (ZMod q)) (t n : ℕ)
    (ys : ℕ → ZMod q) (blinds : ℕ → ℤ) (ctx : ℕ → ℕ)
    (hinj : ∀ (a b r : ℤ), Hcom a r = Hcom b r → a = b) :
    (∃ out, Keys.phase1_verify_com_phase2_distribute Hcom enc coefRand k
        ⟨t, n⟩
        ((List.range n).map (fun j => ⟨blinds j, ys j⟩))
        ((List.range n).map (fun j =>
          ⟨Hcom (fromBytes (enc (ys j)) + (ctx j : ℤ)) (blinds j)⟩))
      = Except.ok out)
    ↔ ∀ j, j < n → ctx j = j := by
  have hgetd : ∀ i, i < n →
      ((List.range n).map (fun j => (⟨blinds j, ys j⟩ : KeyGenDecom q))).getD i
          ⟨0, 0⟩ = ⟨blinds i, ys i⟩ := by
    intro i hi
    rw [List.getD_eq_getElem _ _ (by simpa using hi)]
    simp
  have hgetc : ∀ i, i < n →
      ((List.range n).map (fun j => (⟨Hcom (fromBytes (enc (ys j)) + (ctx j : ℤ))
          (blinds j)⟩ : KeyGenComm))).getD i ⟨0⟩
        = ⟨Hcom (fromBytes (enc (ys i)) + (ctx i : ℤ)) (blinds i)⟩ := by
    intro i hi
    rw [List.getD_eq_getElem _ _ (by simpa using hi)]
    simp
  simp only [Keys.phase1_verify_com_phase2_distribute, List.length_map,
    List.length_range]
  rw [if_neg (by simp)]
  by_cases hg : ∀ j, j < n → ctx j = j
  · have hall : ((List.range n).all fun i =>
        decide (Hcom (fromBytes (enc (((List.range n).map
            (fun j => (⟨blinds j, ys j⟩ : KeyGenDecom q))).getD i ⟨0, 0⟩).y_i)
            + (i : ℤ))
          (((List.range n).map (fun j => (⟨blinds j, ys j⟩ : KeyGenDecom q))).getD
            i ⟨0, 0⟩).blind_factor
          = (((List.range n).map (fun j =>
              (⟨Hcom (fromBytes (enc (ys j)) + (ctx j : ℤ)) (blinds j)⟩
                : KeyGenComm))).getD i ⟨0⟩).com)) = true := by
      rw [List.all_eq_true]
      intro i hi
      rw [List.mem_range] at hi
      rw [hgetd i hi, hgetc i hi]
      simp only [decide_eq_true_eq]
      rw [hg i hi]
    rw [hall]
    simp only [if_true]
    exact iff_of_true ⟨_, rfl⟩ hg
  · push_neg at hg
    obtain ⟨j, hjn, hne⟩ := hg
    have hall : ((List.range n).all fun i =>
        decide (Hcom (fromBytes (enc (((List.range n).map
            (fun j => (⟨blinds j, ys j⟩ : KeyGenDecom q))).getD i ⟨0, 0⟩).y_i)
            + (i : ℤ))
          (((List.range n).map (fun j => (⟨blinds j, ys j⟩ : KeyGenDecom q))).getD
            i ⟨0, 0⟩).blind_factor
          = (((List.range n).map (fun j =>
              (⟨Hcom (fromBytes (enc (ys j)) + (ctx j : ℤ)) (blinds j)⟩
                : KeyGenComm))).getD i ⟨0⟩).com)) = false := by
      rw [List.all_eq_false]
      refine ⟨j, List.mem_range.mpr hjn, ?_⟩
      rw [hgetd j hjn, hgetc j hjn]
      simp only [decide_eq_true_eq]
      intro hcontra
      have := hinj _ _ _ hcontra
      have : (j : ℤ) = (ctx j : ℤ) := by omega
      exact hne (by exact_mod_cast this.symm)
    rw [hall]
    simp only [Bool.false_eq_true, if_false]
    refine iff_of_false ?_ ?_
    · rintro ⟨out, hout⟩
      exact Except.noConfusion hout
    · intro hforall
      exact hne (hforall j hjn)

/-- Witness for C4: a concrete honest 2-party commitment vector is accepted. -/
theorem claim_C4_witness :
    ∃ out, Keys.phase1_verify_com_phase2_distribute hcomFst (encOne 7) [1]
        (⟨1, 1, 0⟩ : Keys 7) ⟨1, 2⟩
        ((List.range 2).map (fun j : ℕ => ⟨0, (j : ZMod 7)⟩))
        ((List.range 2).map (fun j : ℕ =>
          ⟨hcomFst (fromBytes (encOne 7 (j : ZMod 7)) + (j : ℤ)) 0⟩))
      = Except.ok out := by
  refine (claim_C4_commitment_roundtrip hcomFst (encOne 7) (⟨1, 1, 0⟩ : Keys 7)
    [1] 1 2 (fun j => (j : ZMod 7)) (fun _ => 0) (fun j => j)
    (fun a b r h => h)).mpr ?_
  intro j hj
  rfl

end MpBls
